import Mathlib

/-!
# Verification of the costcalc recursive cost-propagation engine

Shallow embedding of `costcalc.py` (class `ExcelCost`).  Numeric cells of the
pandas DataFrames are modelled as `Option ℚ`: `none` plays the role of NaN
(pandas' "missing" sentinel), and the NaN-propagation rules of pandas
arithmetic are captured by the `n*` operations below.  `pandas.Series.sum`
skips NaN entries (`skipna=True` default), which `nansum` reproduces.

Row order inside a reaction does not influence any computed value (sums are
commutative, lookups are keyed), so the `sort_index` performed by
`rxn_data_setup` — which in pandas only establishes view semantics and a
display order — is not modelled; lookups keyed by `(Prod, Compound)` take the
first matching row, which coincides with pandas label lookup whenever the keys
are unique.
-/

/-- NaN-propagating multiplication on `Option ℚ` (pandas `*`). -/
def nmul : Option ℚ → Option ℚ → Option ℚ
  | some x, some y => some (x * y)
  | _, _ => none

/-- NaN-propagating subtraction on `Option ℚ` (pandas `-`). -/
def nsub : Option ℚ → Option ℚ → Option ℚ
  | some x, some y => some (x - y)
  | _, _ => none

/-- NaN-propagating division on `Option ℚ` (pandas `/`).  Division by zero is
never exercised by the theorems below (the normalising product mass is always
nonzero there), so the `ℚ` convention `x / 0 = 0` is inconsequential. -/
def ndiv : Option ℚ → Option ℚ → Option ℚ
  | some x, some y => some (x / y)
  | _, _ => none

/-- Sum of a list of cells skipping NaN entries: `pandas.Series.sum()` with the
default `skipna=True`; an all-NaN (or empty) list sums to `0`, as in pandas. -/
def nansum : List (Option ℚ) → ℚ
  | [] => 0
  | none :: t => nansum t
  | some x :: t => x + nansum t

/-- One row of the merged `fulldata` DataFrame: the `(Prod, Compound)` index,
the columns brought in by the materials/reactions merge, and the six computed
columns created by `_column_clear`. `costCalc` models the `Cost calc` column
(`true` = cell non-NaN). -/
structure Row where
  prod : String
  compound : String
  mw : Option ℚ := none
  density : Option ℚ := none
  cost : Option ℚ := none
  equiv : Option ℚ := none
  volumes : Option ℚ := none
  relative : Option String := none
  solRecyc : Option ℚ := none
  costCalc : Bool := false
  opex : Option ℚ := none
  kgkgRxn : Option ℚ := none
  rmCostKgRxn : Option ℚ := none
  pRmCostKgRxn : Option ℚ := none
  kgkgProd : Option ℚ := none
  rmCostKgProd : Option ℚ := none
  pRmCostKgProd : Option ℚ := none
deriving Repr, DecidableEq, Inhabited

/-- `self.fulldata.loc[p]`: the rows of reaction `p`. -/
def rxnRows (fd : List Row) (p : String) : List Row :=
  fd.filter (fun r => r.prod == p)

/-- `self.fulldata.loc[(p, c)]`: single-cell lookup (first match). -/
def findRow (fd : List Row) (p c : String) : Option Row :=
  fd.find? (fun r => r.prod == p && r.compound == c)

/-- `self.fulldata.loc[p, col] = ...`: update every row of reaction `p`. -/
def updateRxn (fd : List Row) (p : String) (f : Row → Row) : List Row :=
  fd.map (fun r => if r.prod == p then f r else r)

/-- `self.fulldata.loc[(p, c), col] = ...`: update the `(p, c)` cell. -/
def updateCell (fd : List Row) (p c : String) (f : Row → Row) : List Row :=
  fd.map (fun r => if r.prod == p && r.compound == c then f r else r)

/-- `data['Equiv']*data['MW']`: raw (stage-1) mass of a row. -/
def rawAmt (r : Row) : Option ℚ :=
  nmul r.equiv r.mw

/-- `amount_kg[data.loc[mask, 'Relative']]`: look up the stage-1 mass of the
`Relative` compound inside the same reaction.  The outer `none` models the
`KeyError` raised when the label is NaN or absent from the reaction. -/
def relAmt (data : List Row) (r : Row) : Option (Option ℚ) :=
  match r.relative with
  | none => none
  | some rel => (data.find? (fun x => x.compound == rel)).map rawAmt

/-- The final (stage-2) mass of one row:
`Volumes*Density*(1 - Sol Recyc)*amt_rel` for solvent rows (those with a
`Volumes` value), the raw mass otherwise.  Outer `none` = `KeyError`. -/
def rowAmt (data : List Row) (r : Row) : Option (Option ℚ) :=
  if r.volumes.isSome then
    (relAmt data r).map
      (fun a => nmul (nmul (nmul r.volumes r.density) (nsub (some 1) r.solRecyc)) a)
  else some (rawAmt r)

/-- The `amount_kg` series for the rows `l` of a reaction whose full row list
is `data` (the `Relative` lookups go through `data`).  Fails (`none`) iff some
row's relative-basis lookup raises. -/
def amountsAux (data : List Row) : List Row → Option (List (String × Option ℚ))
  | [] => some []
  | r :: t =>
    match rowAmt data r, amountsAux data t with
    | some a, some l => some ((r.compound, a) :: l)
    | _, _ => none

/-- `amount_kg` keyed by compound name for a whole reaction. -/
def amountsOf (data : List Row) : Option (List (String × Option ℚ)) :=
  amountsAux data data

/-- `amount_kg[c]`: keyed lookup in the series; `none` = `KeyError`. -/
def lookupAmt (amts : List (String × Option ℚ)) (c : String) : Option (Option ℚ) :=
  (amts.find? (fun x => x.1 == c)).map (fun x => x.2)

/-- Line 464: store a recursively computed cost into a row. -/
def costWriteFn (cst : ℚ) (r : Row) : Row :=
  { r with cost := some cst }

/-- The recursion loop of `_rxn_cost` (lines 454-464): for every compound of
the reaction whose `Cost` was NaN when the loop started, skip the reaction's
own product, otherwise recursively cost the identically-named reaction with
the amplifier `amp * kg/kg rxn` and store the returned cost in the `(p, cpd)`
cell.  `rc` is the recursive engine at one fuel level lower. -/
def costLoop (rc : String → Option ℚ → List Row → Option (ℚ × List Row))
    (p : String) (amp : Option ℚ) : List String → List Row → Option (List Row)
  | [], fd => some fd
  | cpd :: rest, fd =>
    if cpd == p then costLoop rc p amp rest fd
    else
      match findRow fd p cpd with
      | none => none
      | some row =>
        match rc cpd (nmul amp row.kgkgRxn) fd with
        | none => none
        | some (cst, fd1) =>
          costLoop rc p amp rest (updateCell fd1 p cpd (costWriteFn cst))

/-- Line 443: one row's `kg/kg rxn` write, the stage-2 amount normalised by
the product amount. -/
def kgkgFn (amts : List (String × Option ℚ)) (prodAmt : Option ℚ) (r : Row) : Row :=
  { r with kgkgRxn := ndiv ((lookupAmt amts r.compound).getD none) prodAmt }

/-- Line 450: the compounds whose `Cost` is NaN when the recursion loop
starts. -/
def unknownCpds (fd1 : List Row) (p : String) : List String :=
  ((rxnRows fd1 p).filter (fun r => r.cost.isNone)).map (fun r => r.compound)

/-- Line 467: `RM cost/kg rxn = kg/kg rxn * Cost`. -/
def rmFn (r : Row) : Row :=
  { r with rmCostKgRxn := nmul r.kgkgRxn r.cost }

/-- Line 470: the self row's `RM cost/kg rxn` is the column sum. -/
def rmSetFn (total : ℚ) (r : Row) : Row :=
  { r with rmCostKgRxn := some total }

/-- Line 475: per-reaction percentage contribution. -/
def pctFn (total : ℚ) (r : Row) : Row :=
  { r with pRmCostKgRxn := ndiv (nmul r.rmCostKgRxn (some 100)) (some total) }

/-- Line 478: the self row's percentage is cleared. -/
def pctClearFn (r : Row) : Row :=
  { r with pRmCostKgRxn := none }

/-- Line 484: `RM cost/kg prod = RM cost/kg rxn * amp`. -/
def rmProdFn (amp : Option ℚ) (r : Row) : Row :=
  { r with rmCostKgProd := nmul r.rmCostKgRxn amp }

/-- Line 488: the self row's `Cost` is set to the raw-material total. -/
def costSetFn (total : ℚ) (r : Row) : Row :=
  { r with cost := some total }

/-- Line 494: `kg/kg prod = kg/kg rxn * amp`. -/
def kgkgProdFn (amp : Option ℚ) (r : Row) : Row :=
  { r with kgkgProd := nmul r.kgkgRxn amp }

/-- The body of `ExcelCost._rxn_cost` (lines 405-503), with the recursive call
abstracted as `rc`.  The intermediate states `fd1`-`fd9` match the successive
in-place writes of the Python code; `data` is a pandas *view*, so every read
goes through the current state. -/
def rxnCostBody (rc : String → Option ℚ → List Row → Option (ℚ × List Row))
    (p : String) (amp : Option ℚ) (fd : List Row) : Option (ℚ × List Row) :=
  let data := rxnRows fd p
  match amountsOf data with
  | none => none
  | some amts =>
    match lookupAmt amts p with
    | none => none
    | some prodAmt =>
      let fd1 := updateRxn fd p (kgkgFn amts prodAmt)
      match costLoop rc p amp (unknownCpds fd1 p) fd1 with
      | none => none
      | some fd2 =>
        let fd3 := updateRxn fd2 p rmFn
        let total := nansum ((rxnRows fd3 p).map (fun r => r.rmCostKgRxn))
        let fd4 := updateCell fd3 p p (rmSetFn total)
        let fd5 := updateRxn fd4 p (pctFn total)
        let fd6 := updateCell fd5 p p pctClearFn
        let fd7 := updateRxn fd6 p (rmProdFn amp)
        let fd8 := updateCell fd7 p p (costSetFn total)
        let fd9 := updateRxn fd8 p (kgkgProdFn amp)
        match findRow fd9 p p with
        | none => none
        | some selfRow =>
          match selfRow.opex with
          | none => some (total, fd9)
          | some ox => some (total + ox, fd9)

/-- `ExcelCost._rxn_cost` with explicit fuel.  The Python source performs
unbounded recursion and diverges on cyclic inputs (a documented caller error);
`none` at fuel `0` stands for that non-termination, and every theorem below
supplies enough fuel for its (finite, tree-shaped) route. -/
def rxnCost : Nat → String → Option ℚ → List Row → Option (ℚ × List Row)
  | 0, _, _, _ => none
  | fuel + 1, p, amp, fd => rxnCostBody (rxnCost fuel) p amp fd

theorem rxnCost_succ (fuel : Nat) (p : String) (amp : Option ℚ) (fd : List Row) :
    rxnCost (fuel + 1) p amp fd = rxnCostBody (rxnCost fuel) p amp fd := rfl

/-- One recorded entry of `self._mod_vals`: the arguments of a `value_mod`
call, replayed by `_column_clear`. -/
structure ModVal where
  cpd : String
  val : ℚ
  valType : String
  step : Option String
deriving Repr, DecidableEq

/-- The row/cell selector of `_set_val` (lines 317-320): `step = None` selects
every occurrence of the compound, otherwise only the one in reaction `step`. -/
def matchesMod (m : ModVal) (r : Row) : Bool :=
  r.compound == m.cpd &&
    (match m.step with
     | none => true
     | some s => r.prod == s)

/-- `self.fulldata.loc[cells, val_type] = val` for the input columns the class
documents as overridable ('Cost', 'Equiv', 'OPEX', etc.).  Setting 'Cost' also
clears the 'Cost calc' flag (lines 322-326). -/
def setField (r : Row) (f : String) (v : ℚ) : Row :=
  if f == "Cost" then { r with cost := some v, costCalc := false }
  else if f == "Equiv" then { r with equiv := some v }
  else if f == "Volumes" then { r with volumes := some v }
  else if f == "Sol Recyc" then { r with solRecyc := some v }
  else if f == "OPEX" then { r with opex := some v }
  else if f == "MW" then { r with mw := some v }
  else if f == "Density" then { r with density := some v }
  else r

/-- Column read used by `sensitivity` to collect the perturbable values. -/
def getField (r : Row) (f : String) : Option ℚ :=
  if f == "Cost" then r.cost
  else if f == "Equiv" then r.equiv
  else if f == "Volumes" then r.volumes
  else if f == "Sol Recyc" then r.solRecyc
  else if f == "OPEX" then r.opex
  else if f == "MW" then r.mw
  else if f == "Density" then r.density
  else none

/-- Step 1 of `_column_clear` (lines 259-260): NaN out the `Cost` of every row
whose `Cost calc` flag is set, so a stale value cannot mask a recalculation. -/
def clearCostRow (r : Row) : Row :=
  if r.costCalc then { r with cost := none } else r

/-- `_set_val` restricted to one row. -/
def applyModRow (m : ModVal) (r : Row) : Row :=
  if matchesMod m r then setField r m.valType m.val else r

/-- Step 3 of `_column_clear` (lines 268-272): reset the six computed columns
to NaN. -/
def clearComputedRow (r : Row) : Row :=
  { r with kgkgRxn := none, rmCostKgRxn := none, pRmCostKgRxn := none,
           kgkgProd := none, rmCostKgProd := none, pRmCostKgProd := none }

/-- `_column_clear` acting on one row: clear calculated costs, replay the
recorded overrides in insertion order, reset the computed columns.  All three
steps of the Python method act row-locally, so the frame-level operation is a
`map` of this function. -/
def clearRow (mods : List ModVal) (r : Row) : Row :=
  clearComputedRow (mods.foldl (fun s m => applyModRow m s) (clearCostRow r))

/-- `ExcelCost._column_clear` (lines 249-272) on the `fulldata` table. -/
def columnClearFD (mods : List ModVal) (fd : List Row) : List Row :=
  fd.map (clearRow mods)

/-- One row of the materials sheet (`self.materials`). -/
structure MatRow where
  compound : String
  mw : Option ℚ := none
  density : Option ℚ := none
  cost : Option ℚ := none
deriving Repr, DecidableEq

/-- One row of the reactions sheet (`self.rxns`). -/
structure RxnRow where
  prod : String
  compound : String
  equiv : Option ℚ := none
  volumes : Option ℚ := none
  relative : Option String := none
  solRecyc : Option ℚ := none
  costCalc : Bool := false
  opex : Option ℚ := none
deriving Repr, DecidableEq

/-- The `pd.merge(..., on='Compound', how='right')` of `rxn_data_setup`
(lines 177-181): every reaction line survives; a failed materials lookup
leaves MW/Density/Cost as NaN.  (With a duplicate-free materials sheet — the
only case the sanity check lets through — the first matching row is the only
one.) -/
def mergeFD (materials : List MatRow) (rxns : List RxnRow) : List Row :=
  rxns.map (fun x =>
    match materials.find? (fun m => m.compound == x.compound) with
    | some m =>
      { prod := x.prod, compound := x.compound, mw := m.mw, density := m.density,
        cost := m.cost, equiv := x.equiv, volumes := x.volumes, relative := x.relative,
        solRecyc := x.solRecyc, costCalc := x.costCalc, opex := x.opex }
    | none =>
      { prod := x.prod, compound := x.compound, equiv := x.equiv, volumes := x.volumes,
        relative := x.relative, solRecyc := x.solRecyc, costCalc := x.costCalc,
        opex := x.opex })

/-- The whole interpreter state: the inputs (`final_prod`, `materials`,
`rxns`), the working table `fulldata`, the recorded overrides `_mod_vals`,
the scalar `cost` attribute, and the derived `pmi` table (one
`(Prod, Compound, value)` row per reaction plus the synthetic full-route row).
`cost : Option ℚ` is `none` both before the first calculation and when the
stored value is NaN. -/
structure State where
  finalProd : String
  materials : List MatRow
  rxns : List RxnRow
  fulldata : List Row
  modVals : List ModVal
  cost : Option ℚ
  pmi : List (String × String × ℚ)
deriving Repr, DecidableEq

/-- `ExcelCost._column_clear` on the state. -/
def columnClear (st : State) : State :=
  { st with fulldata := columnClearFD st.modVals st.fulldata }

/-- `ExcelCost.rxn_data_setup` (lines 165-196): rebuild `fulldata` from the
materials/reactions sheets, reset `_mod_vals` to the empty list, then run
`_column_clear` (which, with no recorded overrides, just NaNs the
cost-calculated costs and creates the empty computed columns). -/
def rxnDataSetup (st : State) : State :=
  { st with fulldata := columnClearFD [] (mergeFD st.materials st.rxns), modVals := [] }

/-- `ExcelCost.value_mod` (lines 274-310): record the override, then clear and
replay. -/
def valueMod (st : State) (cpd : String) (v : ℚ) (valType : String) (step : Option String) :
    State :=
  columnClear { st with modVals := st.modVals ++ [⟨cpd, v, valType, step⟩] }

/-- The sorting prefix used by the PMI table (`self._pre`, line 543). -/
def pmiPre : String := "zzzz"

/-- Per-reaction PMI: the `groupby('Prod')` sum of `kg/kg rxn` (line 546). -/
def rxnPMI (fd : List Row) (q : String) : ℚ :=
  nansum ((rxnRows fd q).map (fun r => r.kgkgRxn))

/-- The whole-route PMI: the sum of the `kg/kg prod` column (line 553). -/
def fullPMI (fd : List Row) : ℚ :=
  nansum (fd.map (fun r => r.kgkgProd))

/-- The distinct reaction names, first occurrence first (the `groupby` keys;
pandas orders them differently, but no computed value depends on the order). -/
def uniqueKeysAux (seen : List String) : List String → List String
  | [] => []
  | x :: t => if seen.contains x then uniqueKeysAux seen t
              else x :: uniqueKeysAux (x :: seen) t

def uniqueKeys (l : List String) : List String :=
  uniqueKeysAux [] l

/-- Line 519: replace the final self row's `Cost` by the stored
(OPEX-inclusive) cost. -/
def postCostFn (c0 : Option ℚ) (r : Row) : Row :=
  { r with cost := c0 }

/-- Line 522: whole-route percentage contribution. -/
def postPctFn (c0 : Option ℚ) (r : Row) : Row :=
  { r with pRmCostKgProd := ndiv (nmul r.rmCostKgProd (some 100)) c0 }

/-- Lines 528-536: null the per-final-product columns of cost-calculated
rows. -/
def postMaskFn (r : Row) : Row :=
  if r.costCalc then { r with pRmCostKgProd := none, rmCostKgProd := none, kgkgProd := none }
  else r

/-- Line 538: the final self row's `kg/kg prod` is forced to 1. -/
def postKgFn (r : Row) : Row :=
  { r with kgkgProd := some 1 }

/-- `ExcelCost._rxn_data_post` (lines 505-561): replace the final self-row's
`Cost` by the OPEX-inclusive stored cost when OPEX is present, compute the
whole-route percentages, null the per-final-product columns of every
cost-calculated row, force the final self-row's `kg/kg prod` to 1, and build
the PMI table. -/
def rxnDataPost (st : State) : State :=
  let p := st.finalProd
  let fd0 := st.fulldata
  let opex := (findRow fd0 p p).bind (fun r => r.opex)
  let fd1 := if opex.isSome then updateCell fd0 p p (postCostFn st.cost) else fd0
  let fd2 := fd1.map (postPctFn st.cost)
  let fd3 := fd2.map postMaskFn
  let fd4 := updateCell fd3 p p postKgFn
  let prods := uniqueKeys (fd4.map (fun r => r.prod))
  let pmiT := (prods.map (fun q => (q, pmiPre ++ q ++ " PMI", rxnPMI fd4 q)))
      ++ [(p, pmiPre ++ pmiPre ++ "Full Route PMI", fullPMI fd4)]
  { st with fulldata := fd4, pmi := pmiT }

/-- `ExcelCost.calc_cost` (lines 393-403): clear/replay, run the recursive
engine on the final product with amplifier 1, store the returned cost, then
post-process.  (`self._now`, a wall-clock timestamp used only for display, is
not modelled.) -/
def calcCost (fuel : Nat) (st : State) : Option State :=
  let st1 := columnClear st
  match rxnCost fuel st1.finalProd (some 1) st1.fulldata with
  | none => none
  | some (c, fd) => some (rxnDataPost { st1 with fulldata := fd, cost := some c })

/-- The loop body of `ExcelCost.value_scan` (lines 362-369): override,
recalculate, record the cost, restore `fulldata` from the copy taken before
the loop, pop the override. -/
def scanLoop (fuel : Nat) (cpd : String) (valType : String) (step : Option String)
    (fdCopy : List Row) :
    List ℚ → State → List (Option ℚ) → Option (List (Option ℚ) × State)
  | [], st, acc => some (acc, st)
  | v :: rest, st, acc =>
    match calcCost fuel (valueMod st cpd v valType step) with
    | none => none
    | some st2 =>
      scanLoop fuel cpd valType step fdCopy rest
        { st2 with fulldata := fdCopy, modVals := st2.modVals.dropLast }
        (acc ++ [st2.cost])

/-- `ExcelCost.value_scan` (lines 328-380) on a list of values: run the loop,
then reset `self.cost` from the (restored) self-row's `RM cost/kg rxn`. -/
def valueScan (fuel : Nat) (st : State) (cpd : String) (vals : List ℚ)
    (valType : String) (step : Option String) : Option (List (Option ℚ) × State) :=
  match scanLoop fuel cpd valType step st.fulldata vals st [] with
  | none => none
  | some (costs, st1) =>
    let resetCost := (findRow st1.fulldata st1.finalProd st1.finalProd).bind
      (fun r => r.rmCostKgRxn)
    some (costs, { st1 with cost := resetCost })

/-- One row of the sensitivity report table.  `costLow`/`pctLow` hold the cost
and percent change observed with the *lowered* value (the source stores them
in the columns named 'Cost low'/'% low'). -/
structure SensRow where
  prod : String
  compound : String
  base : ℚ
  valLow : ℚ
  valHigh : ℚ
  costLow : Option ℚ
  costHigh : Option ℚ
  pctLow : Option ℚ
  pctHigh : Option ℚ
deriving Repr, DecidableEq

/-- The loop body of `ExcelCost.sensitivity` (lines 667-687): for each row
that had a value in the chosen column, rebuild the dataset from the sheets
(`rxn_data_setup`, which also *empties* `_mod_vals`), apply the low override,
recost, then likewise for the high override. -/
def sensLoop (fuel : Nat) (col : String) (frac : ℚ) (costSave : Option ℚ) :
    List (String × String × ℚ) → State → List SensRow → Option (List SensRow × State)
  | [], st, acc => some (acc, st)
  | (step, cpd, v) :: rest, st, acc =>
    match calcCost fuel (valueMod (rxnDataSetup st) cpd (v * (1 - frac)) col (some step)) with
    | none => none
    | some st2 =>
      let pLow := nsub (some 100) (ndiv (nmul st2.cost (some 100)) costSave)
      match calcCost fuel (valueMod (rxnDataSetup st2) cpd (v * (1 + frac)) col (some step)) with
      | none => none
      | some st3 =>
        let pHigh := nsub (some 100) (ndiv (nmul st3.cost (some 100)) costSave)
        sensLoop fuel col frac costSave rest st3
          (acc ++ [⟨step, cpd, v, v * (1 - frac), v * (1 + frac), st2.cost, st3.cost, pLow, pHigh⟩])

/-- `ExcelCost.sensitivity` (lines 634-696): snapshot the rows with a value in
`col`, re-run the costing, loop over the perturbations, and finally restore
`self.cost` and `self.fulldata` (and nothing else) from the saved copies. -/
def sensitivity (fuel : Nat) (st : State) (col : String) (frac : ℚ) :
    Option (List SensRow × State) :=
  let sensBase := st.fulldata.filterMap
    (fun r => (getField r col).map (fun v => (r.prod, r.compound, v)))
  match calcCost fuel st with
  | none => none
  | some stA =>
    match sensLoop fuel col frac stA.cost sensBase stA [] with
    | none => none
    | some (rows, stB) =>
      some (rows, { stB with cost := stA.cost, fulldata := stA.fulldata })

/-- Whether a list of names contains a duplicate
(`Series.duplicated().any()`). -/
def hasDup : List String → Bool
  | [] => false
  | x :: t => t.contains x || hasDup t

/-- `ExcelCost._sanity_check` (lines 198-247).  The four checks run in order
and each raises `ValueError` on failure; the final check models
`self.fulldata.loc[(final_prod, final_prod), 'MW']`, which raises a
`KeyError` when the final self-row is missing and yields a `Series`
(detected and rejected) when it resolves to more than one row — so exactly
count 1 passes. -/
def sanityCheck (st : State) : Option State :=
  if st.fulldata.any (fun r => r.mw.isNone) then none
  else if st.fulldata.any (fun r => !r.costCalc && r.cost.isNone) then none
  else if hasDup (st.materials.map (fun m => m.compound)) then none
  else if (st.fulldata.countP
      (fun r => r.prod == st.finalProd && r.compound == st.finalProd)) ≠ 1 then none
  else some st

/-- `ExcelCost.__init__` (lines 103-126) after the spreadsheets are read:
merge the sheets into `fulldata` (`rxn_data_setup`) and validate
(`_sanity_check`); `none` models the constructor raising, so no usable object
reaches the caller. -/
def buildState (materials : List MatRow) (rxns : List RxnRow) (finalProd : String) :
    Option State :=
  sanityCheck (rxnDataSetup
    { finalProd := finalProd, materials := materials, rxns := rxns,
      fulldata := [], modVals := [], cost := none, pmi := [] })

/-! ## Generic list lemmas -/

theorem find?_map_key {α β : Type} (f : α → β) (q : β → Bool) (q' : α → Bool)
    (h : ∀ a, q (f a) = q' a) (l : List α) :
    (l.map f).find? q = (l.find? q').map f := by
  induction l with
  | nil => rfl
  | cons a t ih =>
    simp only [List.map_cons, List.find?_cons, h a]
    cases q' a
    · exact ih
    · rfl

theorem filter_map_key {α : Type} (f : α → α) (q : α → Bool)
    (h : ∀ a, q (f a) = q a) (l : List α) :
    (l.map f).filter q = (l.filter q).map f := by
  induction l with
  | nil => rfl
  | cons a t ih =>
    simp only [List.map_cons, List.filter_cons, h a]
    cases q a
    · simpa using ih
    · simpa using ih

theorem find?_filter_fuse {α : Type} (b q : α → Bool) (l : List α) :
    (l.filter b).find? q = l.find? (fun a => b a && q a) := by
  induction l with
  | nil => rfl
  | cons a t ih =>
    simp only [List.filter_cons, List.find?_cons]
    cases hb : b a
    · simpa using ih
    · simp only [Bool.true_and, if_true, List.find?_cons]
      cases hq : q a
      · simpa [hq] using ih
      · simp [hq]

/-- With duplicate-free keys, keyed lookup of a member's key returns exactly
that member. -/
theorem find?_key_self {α : Type} (key : α → String) (l : List α)
    (hnd : (l.map key).Nodup) {r : α} (hr : r ∈ l) :
    l.find? (fun x => key x == key r) = some r := by
  induction l with
  | nil => cases hr
  | cons a t ih =>
    simp only [List.map_cons, List.nodup_cons] at hnd
    rcases List.mem_cons.mp hr with h | h
    · subst h
      simp [List.find?_cons]
    · have hka : (key a == key r) = false := by
        apply beq_eq_false_iff_ne.mpr
        intro hEq
        exact hnd.1 (hEq ▸ List.mem_map_of_mem key h)
      simp only [List.find?_cons, hka]
      exact ih hnd.2 h

theorem nansum_map_congr {α : Type} (f g : α → Option ℚ) (l : List α)
    (h : ∀ a ∈ l, f a = g a) : nansum (l.map f) = nansum (l.map g) := by
  rw [List.map_congr_left h]

/-! ## Key/field preservation through the frame updates -/

theorem rxnRows_updateRxn (fd : List Row) (p : String) (f : Row → Row)
    (hf : ∀ r, (f r).prod = r.prod) :
    rxnRows (updateRxn fd p f) p = (rxnRows fd p).map f := by
  unfold rxnRows updateRxn
  rw [filter_map_key]
  · apply List.map_congr_left
    intro r hr
    have := List.of_mem_filter hr
    simp only [this, if_true]
  · intro r
    by_cases h : (r.prod == p) = true
    · simp [h, hf r]
    · simp [Bool.not_eq_true] at h
      simp [h]

theorem rxnRows_updateCell (fd : List Row) (p c : String) (f : Row → Row)
    (hf : ∀ r, (f r).prod = r.prod) :
    rxnRows (updateCell fd p c f) p
      = (rxnRows fd p).map (fun r => if r.compound == c then f r else r) := by
  unfold rxnRows updateCell
  rw [filter_map_key]
  · apply List.map_congr_left
    intro r hr
    have hp := List.of_mem_filter hr
    simp only [hp, Bool.true_and]
  · intro r
    by_cases h : (r.prod == p) = true
    · by_cases hc : (r.compound == c) = true
      · simp [h, hc, hf r]
      · simp [Bool.not_eq_true] at hc
        simp [h, hc]
    · simp [Bool.not_eq_true] at h
      by_cases hc : (r.compound == c) = true <;> simp [h, hc, hf r]

theorem findRow_updateRxn (fd : List Row) (p c : String) (f : Row → Row)
    (hf : ∀ r, (f r).prod = r.prod ∧ (f r).compound = r.compound) :
    findRow (updateRxn fd p f) p c = (findRow fd p c).map f := by
  unfold findRow updateRxn
  rw [find?_map_key _ _ (fun r => r.prod == p && r.compound == c)]
  · cases hfind : fd.find? (fun r => r.prod == p && r.compound == c) with
    | none => rfl
    | some r =>
      have hr := List.find?_some hfind
      simp only [Bool.and_eq_true] at hr
      simp only [Option.map_some']
      rw [if_pos hr.1]
  · intro r
    by_cases h : (r.prod == p) = true
    · simp [h, (hf r).1, (hf r).2]
    · simp [Bool.not_eq_true] at h
      simp [h, (hf r).1, (hf r).2]

theorem findRow_updateCell (fd : List Row) (p c : String) (f : Row → Row)
    (hf : ∀ r, (f r).prod = r.prod ∧ (f r).compound = r.compound) :
    findRow (updateCell fd p c f) p c = (findRow fd p c).map f := by
  unfold findRow updateCell
  rw [find?_map_key _ _ (fun r => r.prod == p && r.compound == c)]
  · cases hfind : fd.find? (fun r => r.prod == p && r.compound == c) with
    | none => rfl
    | some r =>
      have hr := List.find?_some hfind
      simp only [Option.map_some']
      rw [if_pos hr]
  · intro r
    by_cases h : (r.prod == p && r.compound == c) = true
    · simp only [Bool.and_eq_true] at h
      simp [h.1, h.2, (hf r).1, (hf r).2]
    · rw [if_neg (by simpa using h)]

theorem findRow_updateCell_ne (fd : List Row) (p c c' : String) (f : Row → Row)
    (hf : ∀ r, (f r).prod = r.prod ∧ (f r).compound = r.compound)
    (hne : c' ≠ c) :
    findRow (updateCell fd p c' f) p c = findRow fd p c := by
  unfold findRow updateCell
  have he : (fd.map (fun r => if r.prod == p && r.compound == c' then f r else r)).find?
        (fun r => r.prod == p && r.compound == c)
      = (fd.find? (fun r => r.prod == p && r.compound == c)).map
        (fun r => if r.prod == p && r.compound == c' then f r else r) := by
    apply find?_map_key
    intro r
    by_cases h : (r.prod == p && r.compound == c') = true
    · simp only [Bool.and_eq_true] at h
      simp [h.1, h.2, (hf r).1, (hf r).2]
    · rw [if_neg (by simpa using h)]
  rw [he]
  cases hfind : fd.find? (fun r => r.prod == p && r.compound == c) with
  | none => rfl
  | some r =>
    have hr := List.find?_some hfind
    simp only [Bool.and_eq_true, beq_iff_eq] at hr
    have hcc : (r.compound == c') = false := by
      apply beq_eq_false_iff_ne.mpr
      rw [hr.2]
      exact fun h => hne h.symm
    simp only [Option.map_some']
    rw [if_neg (by simp [hcc])]

/-- `self.fulldata.loc[(p, c)]` looked up through the reaction slice. -/
theorem findRow_eq_rxnRows_find? (fd : List Row) (p c : String) :
    findRow fd p c = (rxnRows fd p).find? (fun r => r.compound == c) := by
  unfold findRow rxnRows
  rw [find?_filter_fuse]

/-! ## Spec-side (refinement) definitions

`specMass` follows the spec's wording (§4.3 steps 2-3): a non-solvent row's
raw mass is `equivalents × molecularWeight`; a solvent row's mass is
`volume × density × (1 − recycleFraction) × relativeMass`, the relative mass
being the raw (equivalents × MW) mass of the `relative`-basis compound in the
same reaction. -/
def specMass (data : List Row) (r : Row) : Option ℚ :=
  match r.volumes with
  | none => nmul r.equiv r.mw
  | some _ =>
    match r.relative with
    | none => none
    | some rel =>
      match data.find? (fun x => x.compound == rel) with
      | none => none
      | some rr =>
        nmul (nmul (nmul r.volumes r.density) (nsub (some 1) r.solRecyc))
          (nmul rr.equiv rr.mw)

/-- The direct (spec §4.3 step 6) formula for a reaction's raw-material unit
cost: sum of mass-ratio × cost over the reaction's rows, every mass normalised
by the product row `s`'s raw mass; rows with an unknown cost contribute
nothing (NaN-skipping sum). -/
def leafTotal (data : List Row) (s : Row) : ℚ :=
  nansum (data.map (fun r => nmul (ndiv (specMass data r) (rawAmt s)) r.cost))

/-- Spec §4.3 step 9: the returned unit cost, plus the reaction's own OPEX if
present. -/
def leafReturn (data : List Row) (s : Row) : ℚ :=
  match s.opex with
  | none => leafTotal data s
  | some ox => leafTotal data s + ox

/-- A row with all six cost/ratio cells written at once (used to state the
cumulative effect of the engine's write sequence). -/
def accR (r : Row) (cost kg rm pct rmp kgp : Option ℚ) : Row :=
  { r with cost := cost, kgkgRxn := kg, rmCostKgRxn := rm, pRmCostKgRxn := pct,
           rmCostKgProd := rmp, kgkgProd := kgp }

/-- The spec-side mass ratio of a row: its mass normalised by the product
row `s`'s raw mass. -/
def leafK (data : List Row) (s : Row) (r : Row) : Option ℚ :=
  ndiv (specMass data r) (rawAmt s)

/-- Writing a `kg/kg rxn` column given by `kf`. -/
def kgkgSet (kf : Row → Option ℚ) (r : Row) : Row :=
  { r with kgkgRxn := kf r }

/-- The per-row effect of costing a reaction that needs no recursion: the
self row receives the summed cost, every row receives its mass ratio,
contribution, percentage and the amplified per-final-product columns. -/
def leafRow (data : List Row) (s : Row) (p : String) (amp : Option ℚ) (r : Row) : Row :=
  if r.compound == p then
    accR r (some (leafTotal data s)) (leafK data s r) (some (leafTotal data s)) none
      (nmul (some (leafTotal data s)) amp) (nmul (leafK data s r) amp)
  else
    accR r r.cost (leafK data s r) (nmul (leafK data s r) r.cost)
      (ndiv (nmul (nmul (leafK data s r) r.cost) (some 100)) (some (leafTotal data s)))
      (nmul (nmul (leafK data s r) r.cost) amp) (nmul (leafK data s r) amp)

/-- `leafRow` on the reaction's rows, identity elsewhere. -/
def leafUpd (data : List Row) (s : Row) (p : String) (amp : Option ℚ) (r : Row) : Row :=
  if r.prod == p then leafRow data s p amp r else r

theorem leafUpd_keys (data : List Row) (s : Row) (p : String) (amp : Option ℚ) (r : Row) :
    (leafUpd data s p amp r).prod = r.prod ∧ (leafUpd data s p amp r).compound = r.compound := by
  unfold leafUpd leafRow accR
  by_cases hp : (r.prod == p) = true <;> by_cases hc : (r.compound == p) = true <;>
    simp [hp, hc]

theorem leafUpd_opex (data : List Row) (s : Row) (p : String) (amp : Option ℚ) (r : Row) :
    (leafUpd data s p amp r).opex = r.opex := by
  unfold leafUpd leafRow accR
  by_cases hp : (r.prod == p) = true <;> by_cases hc : (r.compound == p) = true <;>
    simp [hp, hc]

/-- `rowAmt` agrees with the spec-side mass whenever the relative-basis lookup
of a solvent row succeeds. -/
theorem rowAmt_eq_spec (data : List Row) (r : Row)
    (h : r.volumes.isSome = true →
      ∃ rel, r.relative = some rel ∧ (data.find? (fun x => x.compound == rel)).isSome = true) :
    rowAmt data r = some (specMass data r) := by
  unfold rowAmt specMass
  cases hv : r.volumes with
  | none => simp [rawAmt]
  | some v =>
    obtain ⟨rel, hrel, hfind⟩ := h (by simp [hv])
    cases hfr : data.find? (fun x => x.compound == rel) with
    | none => rw [hfr] at hfind; cases hfind
    | some rr =>
      simp only [hv, Option.isSome_some, if_true, relAmt, hrel, hfr, Option.map_some']
      simp [rawAmt]

theorem amountsAux_spec (data : List Row)
    (hsolv : ∀ r ∈ data, r.volumes.isSome = true →
      ∃ rel, r.relative = some rel ∧ (data.find? (fun x => x.compound == rel)).isSome = true) :
    ∀ l, (∀ r ∈ l, r ∈ data) →
      amountsAux data l = some (l.map (fun r => (r.compound, specMass data r))) := by
  intro l
  induction l with
  | nil => intro _; rfl
  | cons r t ih =>
    intro hmem
    have hr : r ∈ data := hmem r (List.mem_cons_self r t)
    unfold amountsAux
    rw [rowAmt_eq_spec data r (hsolv r hr), ih (fun x hx => hmem x (List.mem_cons_of_mem r hx))]
    simp

theorem amountsOf_spec (data : List Row)
    (hsolv : ∀ r ∈ data, r.volumes.isSome = true →
      ∃ rel, r.relative = some rel ∧ (data.find? (fun x => x.compound == rel)).isSome = true) :
    amountsOf data = some (data.map (fun r => (r.compound, specMass data r))) :=
  amountsAux_spec data hsolv data (fun _ hx => hx)

/-- Keyed lookup in the computed `amount_kg` series. -/
theorem lookupAmt_map (data : List Row) (c : String) :
    lookupAmt (data.map (fun r => (r.compound, specMass data r))) c
      = (data.find? (fun r => r.compound == c)).map (specMass data) := by
  unfold lookupAmt
  rw [find?_map_key _ _ (fun r => r.compound == c) (fun r => rfl)]
  cases data.find? (fun r => r.compound == c) <;> rfl

theorem costLoop_skip (rc : String → Option ℚ → List Row → Option (ℚ × List Row))
    (p : String) (amp : Option ℚ) :
    ∀ (cpds : List String) (fd : List Row), (∀ c ∈ cpds, (c == p) = true) →
      costLoop rc p amp cpds fd = some fd := by
  intro cpds
  induction cpds with
  | nil => intro fd _; rfl
  | cons c rest ih =>
    intro fd h
    unfold costLoop
    rw [if_pos (h c (List.mem_cons_self c rest))]
    exact ih fd (fun x hx => h x (List.mem_cons_of_mem c hx))

theorem updateRxn_congr (fd : List Row) (p : String) (f g : Row → Row)
    (h : ∀ r ∈ fd, (r.prod == p) = true → f r = g r) :
    updateRxn fd p f = updateRxn fd p g := by
  unfold updateRxn
  apply List.map_congr_left
  intro r hr
  by_cases hp : (r.prod == p) = true
  · simp [hp, h r hr hp]
  · simp [Bool.not_eq_true] at hp
    simp [hp]

set_option maxHeartbeats 800000 in
/-- Stages 1-5 of the write sequence (`kg/kg rxn`, `RM cost/kg rxn`, the self
row's sum, the percentages, the cleared self percentage) collapse to one map
with a flat row transform. -/
theorem leafChainMid (p : String) (kf : Row → Option ℚ) (fd : List Row) (T : ℚ) :
    updateCell (updateRxn (updateCell (updateRxn (updateRxn fd p (kgkgSet kf)) p rmFn) p p
        (rmSetFn T)) p (pctFn T)) p p pctClearFn
      = fd.map (fun r => if r.prod == p then
          (if r.compound == p then
            accR r r.cost (kf r) (some T) none r.rmCostKgProd r.kgkgProd
          else
            accR r r.cost (kf r) (nmul (kf r) r.cost)
              (ndiv (nmul (nmul (kf r) r.cost) (some 100)) (some T))
              r.rmCostKgProd r.kgkgProd)
        else r) := by
  unfold updateRxn updateCell
  simp only [List.map_map]
  apply List.map_congr_left
  intro r hmem
  simp only [Function.comp_apply]
  by_cases hp : (r.prod == p) = true
  · by_cases hc : (r.compound == p) = true
    · simp only [hp, hc, kgkgSet, rmFn, rmSetFn, pctFn, pctClearFn, accR, Bool.and_self,
        if_true]
    · have hc' : (r.compound == p) = false := by
        cases h : (r.compound == p)
        · rfl
        · exact absurd h hc
      simp only [hp, hc', kgkgSet, rmFn, rmSetFn, pctFn, pctClearFn, accR, Bool.and_false,
        Bool.and_true, if_true, if_false, Bool.false_eq_true]
  · have hp' : (r.prod == p) = false := by
      cases h : (r.prod == p)
      · rfl
      · exact absurd h hp
    simp only [hp', Bool.false_and, if_false, Bool.false_eq_true]

set_option maxHeartbeats 800000 in
/-- Stages 6-8 (`RM cost/kg prod`, the self row's `Cost`, `kg/kg prod`)
complete the flat row transform. -/
theorem leafChainFin (p : String) (amp : Option ℚ) (kf : Row → Option ℚ) (fd : List Row) (T : ℚ) :
    updateRxn (updateCell (updateRxn (fd.map (fun r => if r.prod == p then
          (if r.compound == p then
            accR r r.cost (kf r) (some T) none r.rmCostKgProd r.kgkgProd
          else
            accR r r.cost (kf r) (nmul (kf r) r.cost)
              (ndiv (nmul (nmul (kf r) r.cost) (some 100)) (some T))
              r.rmCostKgProd r.kgkgProd)
        else r)) p (rmProdFn amp)) p p (costSetFn T)) p (kgkgProdFn amp)
      = fd.map (fun r => if r.prod == p then
          (if r.compound == p then
            accR r (some T) (kf r) (some T) none (nmul (some T) amp) (nmul (kf r) amp)
          else
            accR r r.cost (kf r) (nmul (kf r) r.cost)
              (ndiv (nmul (nmul (kf r) r.cost) (some 100)) (some T))
              (nmul (nmul (kf r) r.cost) amp) (nmul (kf r) amp))
        else r) := by
  unfold updateRxn updateCell
  simp only [List.map_map]
  apply List.map_congr_left
  intro r hmem
  simp only [Function.comp_apply]
  by_cases hp : (r.prod == p) = true
  · by_cases hc : (r.compound == p) = true
    · simp only [hp, hc, rmProdFn, costSetFn, kgkgProdFn, accR, Bool.and_self, if_true]
    · have hc' : (r.compound == p) = false := by
        cases h : (r.compound == p)
        · rfl
        · exact absurd h hc
      simp only [hp, hc', rmProdFn, costSetFn, kgkgProdFn, accR, Bool.and_false,
        Bool.and_true, if_true, if_false, Bool.false_eq_true]
  · have hp' : (r.prod == p) = false := by
      cases h : (r.prod == p)
      · rfl
      · exact absurd h hp
    simp only [hp', Bool.false_and, if_false, Bool.false_eq_true]

set_option maxHeartbeats 1000000 in
/-- Full characterisation of `_rxn_cost` on a reaction that triggers no
recursion: when the reaction's rows have duplicate-free compound names, a
unique non-solvent self row, resolvable relative-basis lookups and known costs
on every non-product row, the call returns the direct spec formula
(`leafTotal`, plus OPEX if present) and performs exactly the per-row writes
`leafUpd`. -/
theorem rxnCost_leaf (fuel : Nat) (p : String) (amp : Option ℚ) (fd : List Row) (s : Row)
    (hnd : ((rxnRows fd p).map (fun r => r.compound)).Nodup)
    (hs : (rxnRows fd p).find? (fun r => r.compound == p) = some s)
    (hsv : s.volumes = none)
    (hsolv : ∀ r ∈ rxnRows fd p, r.volumes.isSome = true →
      ∃ rel, r.relative = some rel ∧
        ((rxnRows fd p).find? (fun x => x.compound == rel)).isSome = true)
    (hcost : ∀ r ∈ rxnRows fd p, (r.compound == p) = false → r.cost.isSome = true) :
    rxnCost (fuel + 1) p amp fd
      = some (leafReturn (rxnRows fd p) s, fd.map (leafUpd (rxnRows fd p) s p amp)) := by
  have hA := amountsOf_spec (rxnRows fd p) hsolv
  have hsp : specMass (rxnRows fd p) s = rawAmt s := by
    unfold specMass
    rw [hsv]
    rfl
  have hC : lookupAmt ((rxnRows fd p).map (fun r => (r.compound, specMass (rxnRows fd p) r))) p
      = some (rawAmt s) := by
    rw [lookupAmt_map, hs, Option.map_some', hsp]
  have e1 : updateRxn fd p
        (kgkgFn ((rxnRows fd p).map (fun r => (r.compound, specMass (rxnRows fd p) r))) (rawAmt s))
      = updateRxn fd p (kgkgSet (leafK (rxnRows fd p) s)) := by
    apply updateRxn_congr
    intro r hr hp
    have hrd : r ∈ rxnRows fd p := List.mem_filter.mpr ⟨hr, hp⟩
    unfold kgkgFn kgkgSet leafK
    rw [lookupAmt_map, find?_key_self (fun r => r.compound) _ hnd hrd]
    rfl
  have e2 : costLoop (rxnCost fuel) p amp
        (unknownCpds (updateRxn fd p (kgkgSet (leafK (rxnRows fd p) s))) p)
        (updateRxn fd p (kgkgSet (leafK (rxnRows fd p) s)))
      = some (updateRxn fd p (kgkgSet (leafK (rxnRows fd p) s))) := by
    apply costLoop_skip
    intro c hc
    unfold unknownCpds at hc
    rw [rxnRows_updateRxn fd p (kgkgSet (leafK (rxnRows fd p) s)) (fun r => rfl),
      filter_map_key (kgkgSet (leafK (rxnRows fd p) s)) (fun r => r.cost.isNone)
        (fun r => rfl)] at hc
    simp only [List.map_map, List.mem_map] at hc
    obtain ⟨r, hrmem, hrc⟩ := hc
    have hrdata := List.mem_of_mem_filter hrmem
    have hrnone := List.of_mem_filter hrmem
    have hns : ¬ ((r.compound == p) = false) := by
      intro hf
      have hsome := hcost r hrdata hf
      simp only [Option.isNone_iff_eq_none] at hrnone
      rw [Option.isSome_iff_ne_none] at hsome
      exact hsome hrnone
    have hcp : (r.compound == p) = true := by
      cases hsc : (r.compound == p)
      · exact absurd hsc hns
      · rfl
    have hceq : c = r.compound := by
      rw [← hrc]
      rfl
    rw [hceq]
    exact hcp
  have htot : nansum ((rxnRows (updateRxn (updateRxn fd p (kgkgSet (leafK (rxnRows fd p) s)))
        p rmFn) p).map (fun r => r.rmCostKgRxn)) = leafTotal (rxnRows fd p) s := by
    rw [rxnRows_updateRxn _ p rmFn (fun r => rfl),
      rxnRows_updateRxn fd p (kgkgSet (leafK (rxnRows fd p) s)) (fun r => rfl)]
    unfold leafTotal
    simp only [List.map_map]
    apply nansum_map_congr
    intro r _
    rfl
  have hself : findRow fd p p = some s := by
    rw [findRow_eq_rxnRows_find?]
    exact hs
  have efind : findRow (fd.map (leafUpd (rxnRows fd p) s p amp)) p p
      = some (leafUpd (rxnRows fd p) s p amp s) := by
    unfold findRow
    rw [find?_map_key (leafUpd (rxnRows fd p) s p amp) _
      (fun r => r.prod == p && r.compound == p)
      (fun r => by rw [(leafUpd_keys _ _ _ _ r).1, (leafUpd_keys _ _ _ _ r).2])]
    unfold findRow at hself
    rw [hself]
    rfl
  have eU : (fd.map (fun r => if r.prod == p then
        (if r.compound == p then
          accR r (some (leafTotal (rxnRows fd p) s)) (leafK (rxnRows fd p) s r)
            (some (leafTotal (rxnRows fd p) s)) none
            (nmul (some (leafTotal (rxnRows fd p) s)) amp)
            (nmul (leafK (rxnRows fd p) s r) amp)
        else
          accR r r.cost (leafK (rxnRows fd p) s r)
            (nmul (leafK (rxnRows fd p) s r) r.cost)
            (ndiv (nmul (nmul (leafK (rxnRows fd p) s r) r.cost) (some 100))
              (some (leafTotal (rxnRows fd p) s)))
            (nmul (nmul (leafK (rxnRows fd p) s r) r.cost) amp)
            (nmul (leafK (rxnRows fd p) s r) amp))
      else r))
      = fd.map (leafUpd (rxnRows fd p) s p amp) := rfl
  rw [rxnCost_succ]
  unfold rxnCostBody
  simp only [hA, hC, e1, e2, htot,
    leafChainMid p (leafK (rxnRows fd p) s) fd (leafTotal (rxnRows fd p) s),
    leafChainFin p amp (leafK (rxnRows fd p) s) fd (leafTotal (rxnRows fd p) s),
    eU, efind, leafUpd_opex]
  cases hox : s.opex with
  | none => simp [leafReturn, hox]
  | some ox => simp [leafReturn, hox]

/-- C1: for a single reaction whose non-product rows all have known costs, no
sub-reactions and no OPEX, `_rxn_cost` returns the sum over the reaction's
rows of mass-ratio-per-unit-reaction-output times cost, where a non-solvent
row's raw mass is equivalents × MW, a solvent row's mass is
volume × density × (1 − recycle fraction) × its relative-basis compound's raw
mass, and every mass is normalised by the product row's raw mass
(equivalents × MW). -/
theorem c1_single_reaction_direct_cost (fuel : Nat) (p : String) (amp : Option ℚ)
    (fd : List Row) (s : Row)
    (hnd : ((rxnRows fd p).map (fun r => r.compound)).Nodup)
    (hs : (rxnRows fd p).find? (fun r => r.compound == p) = some s)
    (hsv : s.volumes = none)
    (hso : s.opex = none)
    (hsolv : ∀ r ∈ rxnRows fd p, r.volumes.isSome = true →
      ∃ rel, r.relative = some rel ∧
        ((rxnRows fd p).find? (fun x => x.compound == rel)).isSome = true)
    (hcost : ∀ r ∈ rxnRows fd p, (r.compound == p) = false → r.cost.isSome = true) :
    (rxnCost (fuel + 1) p amp fd).map Prod.fst
      = some (nansum ((rxnRows fd p).map (fun r =>
          nmul (ndiv (specMass (rxnRows fd p) r) (nmul s.equiv s.mw)) r.cost))) := by
  rw [rxnCost_leaf fuel p amp fd s hnd hs hsv hsolv hcost]
  simp only [Option.map_some']
  unfold leafReturn
  rw [hso]
  rfl

def c1fd : List Row := [
  { prod := "A", compound := "A", mw := some 200, equiv := some 1, costCalc := true },
  { prod := "A", compound := "r1", mw := some 100, equiv := some 1, cost := some 5 },
  { prod := "A", compound := "s1", mw := some 80, volumes := some 5, density := some 1,
    solRecyc := some 0, relative := some "r1", cost := some 3 }]

def c1self : Row :=
  { prod := "A", compound := "A", mw := some 200, equiv := some 1, costCalc := true }

theorem c1_witness :
    (rxnCost 1 "A" (some 1) c1fd).map Prod.fst = some 10 := by
  have h := c1_single_reaction_direct_cost 0 "A" (some 1) c1fd c1self
    (by with_unfolding_all decide)
    (by with_unfolding_all decide)
    (by with_unfolding_all decide)
    (by with_unfolding_all decide)
    (by
      intro r hr hv
      have hm : r ∈ c1fd := by
        have hr2 : r ∈ rxnRows c1fd "A" := hr
        rw [show rxnRows c1fd "A" = c1fd from by with_unfolding_all rfl] at hr2
        exact hr2
      simp only [c1fd, List.mem_cons, List.not_mem_nil, or_false] at hm
      rcases hm with rfl | rfl | rfl
      · exact absurd hv (by with_unfolding_all decide)
      · exact absurd hv (by with_unfolding_all decide)
      · exact ⟨"r1", rfl, by with_unfolding_all decide⟩)
    (by
      intro r hr hcmp
      have hm : r ∈ c1fd := by
        have hr2 : r ∈ rxnRows c1fd "A" := hr
        rw [show rxnRows c1fd "A" = c1fd from by with_unfolding_all rfl] at hr2
        exact hr2
      simp only [c1fd, List.mem_cons, List.not_mem_nil, or_false] at hm
      rcases hm with rfl | rfl | rfl
      · exact absurd hcmp (by with_unfolding_all decide)
      · with_unfolding_all decide
      · with_unfolding_all decide)
  rw [h]
  with_unfolding_all rfl

theorem rmSetFn_cost (t : ℚ) (r : Row) : (rmSetFn t r).cost = r.cost := rfl
theorem rmSetFn_rm (t : ℚ) (r : Row) : (rmSetFn t r).rmCostKgRxn = some t := rfl
theorem rmSetFn_opex (t : ℚ) (r : Row) : (rmSetFn t r).opex = r.opex := rfl
theorem pctFn_cost (t : ℚ) (r : Row) : (pctFn t r).cost = r.cost := rfl
theorem pctFn_rm (t : ℚ) (r : Row) : (pctFn t r).rmCostKgRxn = r.rmCostKgRxn := rfl
theorem pctFn_opex (t : ℚ) (r : Row) : (pctFn t r).opex = r.opex := rfl
theorem pctClearFn_cost (r : Row) : (pctClearFn r).cost = r.cost := rfl
theorem pctClearFn_rm (r : Row) : (pctClearFn r).rmCostKgRxn = r.rmCostKgRxn := rfl
theorem pctClearFn_opex (r : Row) : (pctClearFn r).opex = r.opex := rfl
theorem rmProdFn_cost (amp : Option ℚ) (r : Row) : (rmProdFn amp r).cost = r.cost := rfl
theorem rmProdFn_rm (amp : Option ℚ) (r : Row) :
    (rmProdFn amp r).rmCostKgRxn = r.rmCostKgRxn := rfl
theorem rmProdFn_opex (amp : Option ℚ) (r : Row) : (rmProdFn amp r).opex = r.opex := rfl
theorem costSetFn_cost (t : ℚ) (r : Row) : (costSetFn t r).cost = some t := rfl
theorem costSetFn_rm (t : ℚ) (r : Row) : (costSetFn t r).rmCostKgRxn = r.rmCostKgRxn := rfl
theorem costSetFn_opex (t : ℚ) (r : Row) : (costSetFn t r).opex = r.opex := rfl
theorem kgkgProdFn_cost (amp : Option ℚ) (r : Row) : (kgkgProdFn amp r).cost = r.cost := rfl
theorem kgkgProdFn_rm (amp : Option ℚ) (r : Row) :
    (kgkgProdFn amp r).rmCostKgRxn = r.rmCostKgRxn := rfl
theorem kgkgProdFn_opex (amp : Option ℚ) (r : Row) : (kgkgProdFn amp r).opex = r.opex := rfl

/-- Any successful `_rxn_cost` call writes the raw-material total (without
OPEX) into the self row's `Cost` and `RM cost/kg rxn`, and returns that total
plus the self row's OPEX when one is present. -/
theorem rxnCost_opex_split (fuel : Nat) (p : String) (amp : Option ℚ) (fd : List Row)
    (c : ℚ) (fd' : List Row) (h : rxnCost fuel p amp fd = some (c, fd')) :
    ∃ selfRow, findRow fd' p p = some selfRow ∧
      ((selfRow.opex = none ∧ selfRow.cost = some c ∧ selfRow.rmCostKgRxn = some c) ∨
       (∃ ox, selfRow.opex = some ox ∧ selfRow.cost = some (c - ox) ∧
         selfRow.rmCostKgRxn = some (c - ox))) := by
  cases fuel with
  | zero => cases h
  | succ fuel =>
    rw [rxnCost_succ] at h
    unfold rxnCostBody at h
    cases hA : amountsOf (rxnRows fd p) with
    | none =>
      simp only [hA] at h
      exact Option.noConfusion h
    | some amts =>
      simp only [hA] at h
      cases hP : lookupAmt amts p with
      | none =>
        simp only [hP] at h
        exact Option.noConfusion h
      | some prodAmt =>
        simp only [hP] at h
        cases hL : costLoop (rxnCost fuel) p amp
            (unknownCpds (updateRxn fd p (kgkgFn amts prodAmt)) p)
            (updateRxn fd p (kgkgFn amts prodAmt)) with
        | none =>
          simp only [hL] at h
          exact Option.noConfusion h
        | some fd2 =>
          simp only [hL] at h
          rw [findRow_updateRxn _ _ _ (kgkgProdFn amp) (fun r => ⟨rfl, rfl⟩),
            findRow_updateCell _ _ _ (costSetFn _) (fun r => ⟨rfl, rfl⟩),
            findRow_updateRxn _ _ _ (rmProdFn amp) (fun r => ⟨rfl, rfl⟩),
            findRow_updateCell _ _ _ pctClearFn (fun r => ⟨rfl, rfl⟩),
            findRow_updateRxn _ _ _ (pctFn _) (fun r => ⟨rfl, rfl⟩),
            findRow_updateCell _ _ _ (rmSetFn _) (fun r => ⟨rfl, rfl⟩)] at h
          cases hr3 : findRow (updateRxn fd2 p rmFn) p p with
          | none =>
            rw [hr3] at h
            exact Option.noConfusion h
          | some r3 =>
            rw [hr3] at h
            simp only [Option.map_some', kgkgProdFn_opex, costSetFn_opex, rmProdFn_opex,
              pctClearFn_opex, pctFn_opex, rmSetFn_opex] at h
            cases ho : r3.opex with
            | none =>
              rw [ho] at h
              simp only [Option.some.injEq, Prod.mk.injEq] at h
              obtain ⟨hc, hfd⟩ := h
              have hfind2 : findRow fd' p p = some (kgkgProdFn amp (costSetFn
                  (nansum (List.map (fun r => r.rmCostKgRxn) (rxnRows (updateRxn fd2 p rmFn) p)))
                  (rmProdFn amp (pctClearFn (pctFn
                  (nansum (List.map (fun r => r.rmCostKgRxn) (rxnRows (updateRxn fd2 p rmFn) p)))
                  (rmSetFn (nansum (List.map (fun r => r.rmCostKgRxn)
                    (rxnRows (updateRxn fd2 p rmFn) p))) r3)))))) := by
                rw [← hfd, findRow_updateRxn _ _ _ (kgkgProdFn amp) (fun r => ⟨rfl, rfl⟩),
                  findRow_updateCell _ _ _ (costSetFn _) (fun r => ⟨rfl, rfl⟩),
                  findRow_updateRxn _ _ _ (rmProdFn amp) (fun r => ⟨rfl, rfl⟩),
                  findRow_updateCell _ _ _ pctClearFn (fun r => ⟨rfl, rfl⟩),
                  findRow_updateRxn _ _ _ (pctFn _) (fun r => ⟨rfl, rfl⟩),
                  findRow_updateCell _ _ _ (rmSetFn _) (fun r => ⟨rfl, rfl⟩), hr3]
                rfl
              refine ⟨_, hfind2, Or.inl ⟨?_, ?_, ?_⟩⟩
              · simp only [kgkgProdFn_opex, costSetFn_opex, rmProdFn_opex, pctClearFn_opex,
                  pctFn_opex, rmSetFn_opex]
                exact ho
              · simp only [kgkgProdFn_cost, costSetFn_cost, hc]
              · simp only [kgkgProdFn_rm, costSetFn_rm, rmProdFn_rm, pctClearFn_rm, pctFn_rm,
                  rmSetFn_rm, hc]
            | some ox =>
              rw [ho] at h
              simp only [Option.some.injEq, Prod.mk.injEq] at h
              obtain ⟨hc, hfd⟩ := h
              have hfind2 : findRow fd' p p = some (kgkgProdFn amp (costSetFn
                  (nansum (List.map (fun r => r.rmCostKgRxn) (rxnRows (updateRxn fd2 p rmFn) p)))
                  (rmProdFn amp (pctClearFn (pctFn
                  (nansum (List.map (fun r => r.rmCostKgRxn) (rxnRows (updateRxn fd2 p rmFn) p)))
                  (rmSetFn (nansum (List.map (fun r => r.rmCostKgRxn)
                    (rxnRows (updateRxn fd2 p rmFn) p))) r3)))))) := by
                rw [← hfd, findRow_updateRxn _ _ _ (kgkgProdFn amp) (fun r => ⟨rfl, rfl⟩),
                  findRow_updateCell _ _ _ (costSetFn _) (fun r => ⟨rfl, rfl⟩),
                  findRow_updateRxn _ _ _ (rmProdFn amp) (fun r => ⟨rfl, rfl⟩),
                  findRow_updateCell _ _ _ pctClearFn (fun r => ⟨rfl, rfl⟩),
                  findRow_updateRxn _ _ _ (pctFn _) (fun r => ⟨rfl, rfl⟩),
                  findRow_updateCell _ _ _ (rmSetFn _) (fun r => ⟨rfl, rfl⟩), hr3]
                rfl
              refine ⟨_, hfind2, Or.inr ⟨ox, ?_, ?_, ?_⟩⟩
              · simp only [kgkgProdFn_opex, costSetFn_opex, rmProdFn_opex, pctClearFn_opex,
                  pctFn_opex, rmSetFn_opex]
                exact ho
              · simp only [kgkgProdFn_cost, costSetFn_cost, ← hc, add_sub_cancel_right]
              · simp only [kgkgProdFn_rm, costSetFn_rm, rmProdFn_rm, pctClearFn_rm, pctFn_rm,
                  rmSetFn_rm, ← hc, add_sub_cancel_right]

theorem findRow_map (fd : List Row) (p c : String) (f : Row → Row)
    (hf : ∀ r, (f r).prod = r.prod ∧ (f r).compound = r.compound) :
    findRow (fd.map f) p c = (findRow fd p c).map f := by
  unfold findRow
  rw [find?_map_key f _ (fun r => r.prod == p && r.compound == c)]
  intro r
  rw [(hf r).1, (hf r).2]

theorem postCostFn_cost (c0 : Option ℚ) (r : Row) : (postCostFn c0 r).cost = c0 := rfl
theorem postCostFn_opex (c0 : Option ℚ) (r : Row) : (postCostFn c0 r).opex = r.opex := rfl
theorem postPctFn_cost (c0 : Option ℚ) (r : Row) : (postPctFn c0 r).cost = r.cost := rfl
theorem postPctFn_opex (c0 : Option ℚ) (r : Row) : (postPctFn c0 r).opex = r.opex := rfl
theorem postKgFn_cost (r : Row) : (postKgFn r).cost = r.cost := rfl
theorem postKgFn_opex (r : Row) : (postKgFn r).opex = r.opex := rfl

theorem postMaskFn_cost (r : Row) : (postMaskFn r).cost = r.cost := by
  unfold postMaskFn
  by_cases h : r.costCalc = true <;> simp [h]

theorem postMaskFn_opex (r : Row) : (postMaskFn r).opex = r.opex := by
  unfold postMaskFn
  by_cases h : r.costCalc = true <;> simp [h]

theorem postMaskFn_keys (r : Row) :
    (postMaskFn r).prod = r.prod ∧ (postMaskFn r).compound = r.compound := by
  unfold postMaskFn
  by_cases h : r.costCalc = true <;> simp [h]

/-- `rxnDataPost` preserves the scalar `cost` attribute. -/
theorem rxnDataPost_cost (st : State) : (rxnDataPost st).cost = st.cost := rfl

/-- After post-processing, a final self row carrying an OPEX holds the stored
(OPEX-inclusive) cost. -/
theorem rxnDataPost_self_cost (st : State) (sr : Row)
    (hfind : findRow (rxnDataPost st).fulldata st.finalProd st.finalProd = some sr)
    (hopex : sr.opex.isSome = true) :
    sr.cost = st.cost := by
  simp only [rxnDataPost] at hfind
  rw [findRow_updateCell _ _ _ postKgFn (fun r => ⟨rfl, rfl⟩),
    findRow_map _ _ _ postMaskFn postMaskFn_keys,
    findRow_map _ _ _ (postPctFn st.cost) (fun r => ⟨rfl, rfl⟩)] at hfind
  cases hr0 : findRow st.fulldata st.finalProd st.finalProd with
  | none =>
    rw [hr0] at hfind
    simp only [Option.bind, Option.isSome_none, if_false, Bool.false_eq_true] at hfind
    rw [hr0] at hfind
    exact Option.noConfusion hfind
  | some q =>
    rw [hr0] at hfind
    cases hq : q.opex with
    | none =>
      simp only [hq, Option.some_bind, Option.isSome_none, if_false,
        Bool.false_eq_true] at hfind
      rw [hr0] at hfind
      simp only [Option.map_some', Option.some.injEq] at hfind
      rw [← hfind] at hopex
      simp only [postKgFn_opex, postMaskFn_opex, postPctFn_opex, hq,
        Option.isSome_none] at hopex
      exact Bool.noConfusion hopex
    | some ox =>
      simp only [hq, Option.some_bind, Option.isSome_some, if_true] at hfind
      rw [findRow_updateCell _ _ _ (postCostFn st.cost) (fun r => ⟨rfl, rfl⟩), hr0] at hfind
      simp only [Option.map_some', Option.some.injEq] at hfind
      rw [← hfind]
      simp only [postKgFn_cost, postMaskFn_cost, postPctFn_cost, postCostFn_cost]

/-- C3: the engine adds a reaction's fixed operating cost only at the point
of return: the returned value is the raw-material total plus OPEX while the
stored self-row `Cost`/`RM cost/kg rxn` hold the raw-material total; and when
the final reaction carries an OPEX, `calc_cost`'s post-processing makes the
final row's stored `Cost` equal the OPEX-inclusive stored cost, which is the
value the recursion returned. -/
theorem c3_opex_added_at_return :
    (∀ fuel p amp fd c fd' sr ox,
        rxnCost fuel p amp fd = some (c, fd') →
        findRow fd' p p = some sr → sr.opex = some ox →
        sr.cost = some (c - ox) ∧ sr.rmCostKgRxn = some (c - ox)) ∧
    (∀ fuel st st' sr,
        calcCost fuel st = some st' →
        findRow st'.fulldata st.finalProd st.finalProd = some sr →
        sr.opex.isSome = true →
        sr.cost = st'.cost ∧
        st'.cost = (rxnCost fuel st.finalProd (some 1)
          (columnClearFD st.modVals st.fulldata)).map Prod.fst) := by
  constructor
  · intro fuel p amp fd c fd' sr ox h hfind hopex
    obtain ⟨selfRow, hfind2, hcase⟩ := rxnCost_opex_split fuel p amp fd c fd' h
    rw [hfind] at hfind2
    have hsr : sr = selfRow := Option.some.inj hfind2
    subst hsr
    rcases hcase with ⟨hn, _, _⟩ | ⟨ox', ho', hc', hr'⟩
    · rw [hopex] at hn
      exact Option.noConfusion hn
    · rw [hopex] at ho'
      have : ox' = ox := (Option.some.inj ho').symm
      subst this
      exact ⟨hc', hr'⟩
  · intro fuel st st' sr hcalc hfind hopex
    unfold calcCost at hcalc
    cases hrc : rxnCost fuel (columnClear st).finalProd (some 1) (columnClear st).fulldata with
    | none =>
      simp only [hrc] at hcalc
      exact Option.noConfusion hcalc
    | some cf =>
      obtain ⟨c, fdR⟩ := cf
      simp only [hrc] at hcalc
      have hst' : st' = rxnDataPost { columnClear st with fulldata := fdR, cost := some c } :=
        (Option.some.inj hcalc).symm
      constructor
      · have hfp : ({ columnClear st with fulldata := fdR, cost := some c } : State).finalProd
            = st.finalProd := rfl
        have := rxnDataPost_self_cost
          { columnClear st with fulldata := fdR, cost := some c } sr
          (by rw [← hst']; exact hfind) hopex
        rw [this, hst', rxnDataPost_cost]
      · rw [hst', rxnDataPost_cost]
        show some c = _
        have : rxnCost fuel st.finalProd (some 1) (columnClearFD st.modVals st.fulldata)
            = some (c, fdR) := hrc
        rw [this]
        rfl

def c3mats : List MatRow := [
  { compound := "A", mw := some 200 },
  { compound := "r1", mw := some 100, cost := some 5 }]

def c3rxns : List RxnRow := [
  { prod := "A", compound := "A", equiv := some 1, costCalc := true, opex := some 2 },
  { prod := "A", compound := "r1", equiv := some 1 }]

def c3st : State :=
  { finalProd := "A", materials := c3mats, rxns := c3rxns,
    fulldata := columnClearFD [] (mergeFD c3mats c3rxns), modVals := [], cost := none,
    pmi := [] }

def c3stOut : State := (calcCost 2 c3st).getD c3st

def c3row : Row := (findRow c3stOut.fulldata "A" "A").getD default

def c3fdOut : List Row := ((rxnCost 2 "A" (some 1) c3st.fulldata).map Prod.snd).getD []

def c3rowR : Row := (findRow c3fdOut "A" "A").getD default

theorem c3_witness :
    c3rowR.cost = some ((9:ℚ)/2 - 2) ∧ c3row.cost = c3stOut.cost ∧
      c3stOut.cost = some ((9:ℚ)/2) := by
  refine ⟨?_, ?_, by with_unfolding_all rfl⟩
  · exact (c3_opex_added_at_return.1 2 "A" (some 1) c3st.fulldata (9/2) c3fdOut c3rowR 2
      (by with_unfolding_all rfl) (by with_unfolding_all rfl)
      (by with_unfolding_all rfl)).1
  · exact (c3_opex_added_at_return.2 2 c3st c3stOut c3row
      (by with_unfolding_all rfl) (by with_unfolding_all rfl)
      (by with_unfolding_all rfl)).1

def c2mats : List MatRow := [
  { compound := "A", mw := some 200 },
  { compound := "B", mw := some 100 },
  { compound := "C", mw := some 50, cost := some 4 }]

def c2rxns : List RxnRow := [
  { prod := "A", compound := "A", equiv := some 1, costCalc := true },
  { prod := "A", compound := "B", equiv := some 1, costCalc := true },
  { prod := "B", compound := "B", equiv := some 1, costCalc := true, opex := some 3 },
  { prod := "B", compound := "C", equiv := some 2 }]

def c2fd0 : List Row := columnClearFD [] (mergeFD c2mats c2rxns)

def c2fdOut : List Row := ((rxnCost 3 "A" (some 1) c2fd0).map Prod.snd).getD []

def c2rowAB : Row := (findRow c2fdOut "A" "B").getD default

def c2rowBB : Row := (findRow c2fdOut "B" "B").getD default

def c2wfdOut : List Row := ((rxnCost 1 "B" (some (1/2)) c2fd0).map Prod.snd).getD []

def c2wBB : Row := (findRow c2wfdOut "B" "B").getD default


def c2rowAB0 : Row := (findRow c2fd0 "A" "B").getD default

def c2selfB : Row := (findRow c2fd0 "B" "B").getD default

def c2wfd1 : List Row :=
  ((rxnCost 2 "B" (nmul (some 1) c2rowAB0.kgkgRxn) c2fd0).map Prod.snd).getD []

/-- **C2.** The recursion loop costs a sub-reaction with the amplifier
`amp * kg/kg rxn` of the consuming row (part 1); every row written by a
successful leaf-level call stores `kg/kg prod = kg/kg rxn * amp` (part 2); and
on the concrete two-level route A <- B the amplifier compounds: B's self-row
per-final-product ratio equals B's own self-row ratio times A's mass ratio for
B (parts 3-6). -/
theorem c2_amplifier_compounds :
    (∀ (rc : String → Option ℚ → List Row → Option (ℚ × List Row)) (p cpd : String)
        (amp : Option ℚ) (rest : List String) (fd : List Row) (row : Row) (cst : ℚ)
        (fd1 : List Row),
        (cpd == p) = false → findRow fd p cpd = some row →
        rc cpd (nmul amp row.kgkgRxn) fd = some (cst, fd1) →
        costLoop rc p amp (cpd :: rest) fd
          = costLoop rc p amp rest (updateCell fd1 p cpd (costWriteFn cst)))
  ∧ (∀ (fuel : Nat) (p : String) (amp : Option ℚ) (fd : List Row) (s : Row),
        ((rxnRows fd p).map (fun r => r.compound)).Nodup →
        (rxnRows fd p).find? (fun r => r.compound == p) = some s →
        s.volumes = none →
        (∀ r ∈ rxnRows fd p, r.volumes.isSome = true →
          ∃ rel, r.relative = some rel ∧
            ((rxnRows fd p).find? (fun x => x.compound == rel)).isSome = true) →
        (∀ r ∈ rxnRows fd p, (r.compound == p) = false → r.cost.isSome = true) →
        ∀ r ∈ ((rxnCost (fuel + 1) p amp fd).map Prod.snd).getD [],
          (r.prod == p) = true → r.kgkgProd = nmul r.kgkgRxn amp)
  ∧ c2rowAB.kgkgRxn = some (1/2)
  ∧ c2rowBB.kgkgRxn = some 1
  ∧ c2rowBB.kgkgProd = nmul c2rowBB.kgkgRxn (nmul (some 1) c2rowAB.kgkgRxn)
  ∧ c2rowBB.kgkgProd = some (1/2) := by
  refine ⟨?_, ?_, by with_unfolding_all rfl, by with_unfolding_all rfl,
    by with_unfolding_all rfl, by with_unfolding_all rfl⟩
  · intro rc p cpd amp rest fd row cst fd1 hcpd hrow hrc
    simp only [costLoop, hcpd, Bool.false_eq_true, if_false, hrow, hrc]
  · intro fuel p amp fd s hnd hs hsv hsolv hcost r hr hp
    rw [rxnCost_leaf fuel p amp fd s hnd hs hsv hsolv hcost] at hr
    simp only [Option.map_some', Option.getD_some, List.mem_map] at hr
    obtain ⟨r0, hr0, rfl⟩ := hr
    have hk := (leafUpd_keys (rxnRows fd p) s p amp r0).1
    rw [hk] at hp
    unfold leafUpd
    simp only [hp, if_true]
    unfold leafRow accR
    by_cases hc : (r0.compound == p) = true <;> simp [hc]

theorem c2_witness :
    (costLoop (rxnCost 2) "A" (some 1) ["B"] c2fd0
      = costLoop (rxnCost 2) "A" (some 1) []
          (updateCell c2wfd1 "A" "B" (costWriteFn 7)))
  ∧ c2wBB.kgkgProd = nmul c2wBB.kgkgRxn (some (1/2)) := by
  refine ⟨?_, ?_⟩
  · exact c2_amplifier_compounds.1 (rxnCost 2) "A" "B" (some 1) [] c2fd0 c2rowAB0 7 c2wfd1
      (by with_unfolding_all decide) (by with_unfolding_all rfl)
      (by with_unfolding_all rfl)
  · exact c2_amplifier_compounds.2.1 0 "B" (some (1/2)) c2fd0 c2selfB
      (by with_unfolding_all decide)
      (by with_unfolding_all rfl)
      (by with_unfolding_all rfl)
      (by
        intro r hr hv
        have h2 : ∀ x ∈ rxnRows c2fd0 "B", x.volumes.isSome = false := by
          with_unfolding_all decide
        rw [h2 r hr] at hv
        exact Bool.noConfusion hv)
      (by with_unfolding_all decide)
      c2wBB (by with_unfolding_all decide) (by with_unfolding_all decide)

theorem find?_map_fix {α : Type} (g : α → α) (q : α → Bool) (l : List α)
    (h1 : ∀ a ∈ l, q (g a) = q a) (h2 : ∀ a ∈ l, q a = true → g a = a) :
    (l.map g).find? q = l.find? q := by
  induction l with
  | nil => rfl
  | cons a t ih =>
    simp only [List.map_cons, List.find?_cons, h1 a (List.mem_cons_self a t)]
    cases hq : q a with
    | false =>
      show (t.map g).find? q = t.find? q
      exact ih (fun x hx => h1 x (List.mem_cons_of_mem a hx))
        (fun x hx => h2 x (List.mem_cons_of_mem a hx))
    | true =>
      show some (g a) = some a
      rw [h2 a (List.mem_cons_self a t) hq]

/-- A cell update of reaction `p'` leaves every lookup in a different
reaction `p` unchanged (the update preserves the key columns). -/
theorem findRow_updateCell_other (fd : List Row) (p p' c c' : String) (f : Row → Row)
    (hf : ∀ r, (f r).prod = r.prod ∧ (f r).compound = r.compound)
    (hne : p ≠ p') :
    findRow (updateCell fd p' c' f) p c = findRow fd p c := by
  unfold findRow updateCell
  apply find?_map_fix
  · intro r _
    by_cases hm : (r.prod == p' && r.compound == c') = true
    · rw [if_pos hm, (hf r).1, (hf r).2]
    · rw [if_neg hm]
  · intro r _ hq
    have hp : r.prod = p := by
      simp only [Bool.and_eq_true] at hq
      exact eq_of_beq hq.1
    have hm : (r.prod == p' && r.compound == c') = false := by
      rw [hp]
      have : (p == p') = false := beq_eq_false_iff_ne.mpr hne
      simp [this]
    rw [if_neg (by simp [hm])]

theorem costWriteFn_keys (cst : ℚ) (r : Row) :
    (costWriteFn cst r).prod = r.prod ∧ (costWriteFn cst r).compound = r.compound :=
  ⟨rfl, rfl⟩

def c10mats : List MatRow := [
  { compound := "A", mw := some 200 },
  { compound := "B", mw := some 100 },
  { compound := "C", mw := some 50, cost := some 4 }]

def c10rxns : List RxnRow := [
  { prod := "A", compound := "A", equiv := some 1, costCalc := true },
  { prod := "A", compound := "B", equiv := some 1, costCalc := true },
  { prod := "B", compound := "B", equiv := some 1, costCalc := true, opex := some 3 },
  { prod := "B", compound := "C", equiv := some 2 }]

def c10st : State :=
  { finalProd := "A", materials := c10mats, rxns := c10rxns,
    fulldata := columnClearFD [] (mergeFD c10mats c10rxns), modVals := [], cost := none,
    pmi := [] }

def c10res : State := (calcCost 3 c10st).getD c10st

def c10AB : Row := (findRow c10res.fulldata "A" "B").getD default

def c10BB : Row := (findRow c10res.fulldata "B" "B").getD default


def c10wfd : List Row :=
  ((rxnCost 2 "B" (some (1/2)) c10st.fulldata).map Prod.snd).getD []

def c10wcons : Row :=
  (findRow (updateCell c10wfd "A" "B" (costWriteFn 7)) "A" "B").getD default

def c10wsub : Row :=
  (findRow (updateCell c10wfd "A" "B" (costWriteFn 7)) "B" "B").getD default

/-- **C10.** The recursion loop writes the OPEX-inclusive returned cost `c`
into the consuming reaction's cell for the sub-reaction's product, while the
sub-reaction's own self row keeps `c - OPEX` (part 1, for any successful
sub-call); on the concrete two-level route A <- B with OPEX 3 on B, after
`calc_cost` the dataset stores cost 7 in the (A, B) cell and 4 in the (B, B)
cell — two different costs for the same compound (parts 2-5). -/
theorem c10_intermediate_opex_disparity :
    (∀ (fuel : Nat) (p cpd : String) (ampSub : Option ℚ) (fd : List Row) (c : ℚ)
        (fd1 : List Row) (cons : Row),
        (cpd == p) = false →
        rxnCost fuel cpd ampSub fd = some (c, fd1) →
        findRow (updateCell fd1 p cpd (costWriteFn c)) p cpd = some cons →
        cons.cost = some c ∧
        ∃ sub, findRow (updateCell fd1 p cpd (costWriteFn c)) cpd cpd = some sub ∧
          ((sub.opex = none ∧ sub.cost = some c) ∨
           ∃ ox, sub.opex = some ox ∧ sub.cost = some (c - ox)))
  ∧ c10AB.cost = some 7
  ∧ c10BB.cost = some 4
  ∧ c10BB.opex = some 3
  ∧ c10AB.cost ≠ c10BB.cost := by
  refine ⟨?_, by with_unfolding_all rfl, by with_unfolding_all rfl,
    by with_unfolding_all rfl, by with_unfolding_all decide⟩
  intro fuel p cpd ampSub fd c fd1 cons hcpd hrc hcons
  obtain ⟨sub, hsub, hsplit⟩ := rxnCost_opex_split fuel cpd ampSub fd c fd1 hrc
  constructor
  · rw [findRow_updateCell fd1 p cpd (costWriteFn c) (costWriteFn_keys c)] at hcons
    cases hf0 : findRow fd1 p cpd with
    | none =>
      rw [hf0] at hcons
      exact Option.noConfusion hcons
    | some r0 =>
      rw [hf0] at hcons
      simp only [Option.map_some'] at hcons
      rw [← Option.some.inj hcons]
      rfl
  · have hne : cpd ≠ p := by
      intro he
      rw [he] at hcpd
      simp at hcpd
    refine ⟨sub, ?_, ?_⟩
    · rw [findRow_updateCell_other fd1 cpd p cpd cpd (costWriteFn c) (costWriteFn_keys c) hne]
      exact hsub
    · rcases hsplit with ⟨h1, h2, _⟩ | ⟨ox, h1, h2, _⟩
      · exact Or.inl ⟨h1, h2⟩
      · exact Or.inr ⟨ox, h1, h2⟩

theorem c10_witness :
    c10wcons.cost = some 7 ∧ c10wsub.opex = some 3 ∧ c10wsub.cost = some (7 - 3) := by
  have h := c10_intermediate_opex_disparity.1 2 "A" "B" (some (1/2)) c10st.fulldata 7
    c10wfd c10wcons (by with_unfolding_all decide) (by with_unfolding_all rfl)
    (by with_unfolding_all rfl)
  exact ⟨h.1, by with_unfolding_all rfl, by with_unfolding_all rfl⟩

theorem nmul_none_right (x : Option ℚ) : nmul x none = none := by cases x <;> rfl

theorem nmul_none_left (y : Option ℚ) : nmul none y = none := by cases y <;> rfl

theorem ndiv_none_left (y : Option ℚ) : ndiv none y = none := by cases y <;> rfl

theorem nsub_none_right (x : Option ℚ) : nsub x none = none := by cases x <;> rfl

theorem leafUpd_solvent (data : List Row) (s : Row) (p : String) (amp : Option ℚ) (r : Row) :
    (leafUpd data s p amp r).volumes = r.volumes ∧
      (leafUpd data s p amp r).solRecyc = r.solRecyc := by
  unfold leafUpd leafRow accR
  by_cases hp : (r.prod == p) = true <;> by_cases hc : (r.compound == p) = true <;>
    simp [hp, hc]

/-- A solvent row whose recycle fraction is missing gets a NaN spec mass:
`1 - NaN` is NaN and it propagates through the product. -/
theorem specMass_no_recycle (data : List Row) (r : Row)
    (hv : r.volumes.isSome = true) (hsr : r.solRecyc = none) :
    specMass data r = none := by
  cases hvv : r.volumes with
  | none =>
    rw [hvv] at hv
    exact Bool.noConfusion hv
  | some v =>
    cases hrel : r.relative with
    | none =>
      unfold specMass
      simp only [hvv, hrel]
    | some rel =>
      cases hfr : data.find? (fun x => x.compound == rel) with
      | none =>
        unfold specMass
        simp only [hvv, hrel, hfr]
      | some rr =>
        unfold specMass
        simp only [hvv, hrel, hfr, hsr, nsub_none_right, nmul_none_right, nmul_none_left]

def c4fd : List Row := [
  { prod := "A", compound := "A", mw := some 200, equiv := some 1, costCalc := true },
  { prod := "A", compound := "r1", mw := some 100, equiv := some 1, cost := some 5 },
  { prod := "A", compound := "s1", mw := some 80, volumes := some 5, density := some 1,
    relative := some "r1", cost := some 3 }]

def c4fdZ : List Row := [
  { prod := "A", compound := "A", mw := some 200, equiv := some 1, costCalc := true },
  { prod := "A", compound := "r1", mw := some 100, equiv := some 1, cost := some 5 },
  { prod := "A", compound := "s1", mw := some 80, volumes := some 5, density := some 1,
    solRecyc := some 0, relative := some "r1", cost := some 3 }]

def c4self : Row :=
  { prod := "A", compound := "A", mw := some 200, equiv := some 1, costCalc := true }

def c4out : List Row := ((rxnCost 1 "A" (some 1) c4fd).map Prod.snd).getD []

def c4row : Row := (findRow c4out "A" "s1").getD default

/-- The original claim is false on this reaction: the solvent row `s1` has a
volume and no recycle fraction, the run succeeds, yet the stored mass ratio
and contribution are NaN (not numbers), the row drops out of the sum
(returned cost 5/2), while an explicit recycle fraction of 0 yields 10. -/
theorem c4_counterexample :
    c4row.volumes.isSome = true ∧ c4row.solRecyc = none ∧
    c4row.kgkgRxn = none ∧ c4row.rmCostKgRxn = none ∧
    (rxnCost 1 "A" (some 1) c4fd).map Prod.fst = some (5/2) ∧
    (rxnCost 1 "A" (some 1) c4fdZ).map Prod.fst = some 10 := by
  refine ⟨by with_unfolding_all rfl, by with_unfolding_all rfl, by with_unfolding_all rfl,
    by with_unfolding_all rfl, by with_unfolding_all rfl, by with_unfolding_all rfl⟩

/-- **C4** (amended): a missing solvent-recycle-fraction is *not* treated as
0.  `1 - NaN` is NaN, so for every non-product solvent row without a recycle
fraction the engine stores NaN in `kg/kg rxn`, `RM cost/kg rxn` and
`kg/kg prod`, and the row silently contributes nothing to the reaction's
cost. -/
theorem c4_missing_recycle_nan :
    ∀ (fuel : Nat) (p : String) (amp : Option ℚ) (fd : List Row) (s : Row),
      ((rxnRows fd p).map (fun r => r.compound)).Nodup →
      (rxnRows fd p).find? (fun r => r.compound == p) = some s →
      s.volumes = none →
      (∀ r ∈ rxnRows fd p, r.volumes.isSome = true →
        ∃ rel, r.relative = some rel ∧
          ((rxnRows fd p).find? (fun x => x.compound == rel)).isSome = true) →
      (∀ r ∈ rxnRows fd p, (r.compound == p) = false → r.cost.isSome = true) →
      ∀ r ∈ ((rxnCost (fuel + 1) p amp fd).map Prod.snd).getD [],
        (r.prod == p) = true → (r.compound == p) = false →
        r.volumes.isSome = true → r.solRecyc = none →
        r.kgkgRxn = none ∧ r.rmCostKgRxn = none ∧ r.kgkgProd = none := by
  intro fuel p amp fd s hnd hs hsv hsolv hcost r hr hp hc hv hsr
  rw [rxnCost_leaf fuel p amp fd s hnd hs hsv hsolv hcost] at hr
  simp only [Option.map_some', Option.getD_some, List.mem_map] at hr
  obtain ⟨r0, hr0, rfl⟩ := hr
  have hkeys := leafUpd_keys (rxnRows fd p) s p amp r0
  have hsolvk := leafUpd_solvent (rxnRows fd p) s p amp r0
  rw [hkeys.1] at hp
  rw [hkeys.2] at hc
  rw [hsolvk.1] at hv
  rw [hsolvk.2] at hsr
  have hsm : specMass (rxnRows fd p) r0 = none := specMass_no_recycle _ r0 hv hsr
  have hkk : leafK (rxnRows fd p) s r0 = none := by
    unfold leafK
    rw [hsm, ndiv_none_left]
  unfold leafUpd
  simp only [hp, if_true]
  unfold leafRow
  simp only [hc, Bool.false_eq_true, if_false]
  unfold accR
  simp only [hkk, ndiv_none_left, nmul_none_left]
  exact ⟨trivial, trivial, trivial⟩

theorem c4_witness :
    c4row.kgkgRxn = none ∧ c4row.rmCostKgRxn = none ∧ c4row.kgkgProd = none := by
  refine c4_missing_recycle_nan 0 "A" (some 1) c4fd c4self
    (by with_unfolding_all decide)
    (by with_unfolding_all decide)
    (by with_unfolding_all decide)
    (by
      intro r hr hv
      have hm : r ∈ c4fd := by
        have hr2 : r ∈ rxnRows c4fd "A" := hr
        rw [show rxnRows c4fd "A" = c4fd from by with_unfolding_all rfl] at hr2
        exact hr2
      simp only [c4fd, List.mem_cons, List.not_mem_nil, or_false] at hm
      rcases hm with rfl | rfl | rfl
      · exact absurd hv (by with_unfolding_all decide)
      · exact absurd hv (by with_unfolding_all decide)
      · exact ⟨"r1", rfl, by with_unfolding_all decide⟩)
    (by
      intro r hr hcmp
      have hm : r ∈ c4fd := by
        have hr2 : r ∈ rxnRows c4fd "A" := hr
        rw [show rxnRows c4fd "A" = c4fd from by with_unfolding_all rfl] at hr2
        exact hr2
      simp only [c4fd, List.mem_cons, List.not_mem_nil, or_false] at hm
      rcases hm with rfl | rfl | rfl
      · exact absurd hcmp (by with_unfolding_all decide)
      · with_unfolding_all decide
      · with_unfolding_all decide)
    c4row (by with_unfolding_all decide) (by with_unfolding_all decide)
    (by with_unfolding_all decide) (by with_unfolding_all decide)
    (by with_unfolding_all decide)

theorem postCostFn_costCalc (c0 : Option ℚ) (r : Row) :
    (postCostFn c0 r).costCalc = r.costCalc := rfl

theorem postPctFn_costCalc (c0 : Option ℚ) (r : Row) :
    (postPctFn c0 r).costCalc = r.costCalc := rfl

theorem postKgFn_costCalc (r : Row) : (postKgFn r).costCalc = r.costCalc := rfl

theorem postMaskFn_costCalc (r : Row) : (postMaskFn r).costCalc = r.costCalc := by
  unfold postMaskFn
  by_cases h : r.costCalc <;> simp [h]

theorem postKgFn_keys (r : Row) :
    (postKgFn r).prod = r.prod ∧ (postKgFn r).compound = r.compound := ⟨rfl, rfl⟩

theorem postMaskFn_masked (r : Row) (h : r.costCalc = true) :
    (postMaskFn r).pRmCostKgProd = none ∧ (postMaskFn r).rmCostKgProd = none ∧
      (postMaskFn r).kgkgProd = none := by
  unfold postMaskFn
  simp [h]

theorem mem_updateCell {fd : List Row} {p c : String} {f : Row → Row} {r : Row}
    (hr : r ∈ updateCell fd p c f) :
    ∃ r0 ∈ fd, (if r0.prod == p && r0.compound == c then f r0 else r0) = r := by
  unfold updateCell at hr
  obtain ⟨r0, h0, he⟩ := List.mem_map.mp hr
  exact ⟨r0, h0, he⟩

theorem nansum_skip_filter {α : Type} (f : α → Option ℚ) (q : α → Bool) (l : List α)
    (h : ∀ r ∈ l, q r = false → f r = none) :
    nansum (l.map f) = nansum ((l.filter q).map f) := by
  induction l with
  | nil => rfl
  | cons a t ih =>
    have iht := ih (fun x hx => h x (List.mem_cons_of_mem a hx))
    cases hq : q a with
    | false =>
      have hfa : f a = none := h a (List.mem_cons_self a t) hq
      simp only [List.map_cons, List.filter_cons, hq, Bool.false_eq_true, if_false, hfa, nansum, iht]
    | true =>
      simp only [List.map_cons, List.filter_cons, hq, if_true]
      cases hfa : f a with
      | none => simp only [nansum, iht]
      | some x => simp only [nansum, iht]

/-- `_rxn_data_post`'s final DataFrame, stage by stage. -/
theorem rxnDataPost_fulldata (st : State) :
    (rxnDataPost st).fulldata
      = updateCell
          (((if ((findRow st.fulldata st.finalProd st.finalProd).bind
                  (fun r => r.opex)).isSome
              then updateCell st.fulldata st.finalProd st.finalProd (postCostFn st.cost)
              else st.fulldata).map (postPctFn st.cost)).map postMaskFn)
          st.finalProd st.finalProd postKgFn := rfl

/-- `_rxn_data_post`'s PMI table: per-reaction rows, then the full-route row. -/
theorem rxnDataPost_pmi (st : State) :
    (rxnDataPost st).pmi
      = (uniqueKeys ((rxnDataPost st).fulldata.map (fun r => r.prod))).map
          (fun q => (q, pmiPre ++ q ++ " PMI", rxnPMI (rxnDataPost st).fulldata q))
        ++ [(st.finalProd, pmiPre ++ pmiPre ++ "Full Route PMI",
             fullPMI (rxnDataPost st).fulldata)] := rfl

/-- Every cost-calculated row other than the final self cell leaves
post-processing with NaN in the three per-final-product columns. -/
theorem rxnDataPost_mask (st : State) (r : Row) (hr : r ∈ (rxnDataPost st).fulldata)
    (hcc : r.costCalc = true)
    (hns : (r.prod == st.finalProd && r.compound == st.finalProd) = false) :
    r.pRmCostKgProd = none ∧ r.rmCostKgProd = none ∧ r.kgkgProd = none := by
  rw [rxnDataPost_fulldata] at hr
  obtain ⟨r3, hr3, he⟩ := mem_updateCell hr
  by_cases hc : (r3.prod == st.finalProd && r3.compound == st.finalProd) = true
  · rw [if_pos hc] at he
    subst he
    rw [show (postKgFn r3).prod = r3.prod from rfl,
      show (postKgFn r3).compound = r3.compound from rfl] at hns
    rw [hc] at hns
    exact Bool.noConfusion hns
  · rw [if_neg hc] at he
    subst he
    obtain ⟨r2, hr2, he2⟩ := List.mem_map.mp hr3
    rw [← he2] at hcc
    rw [postMaskFn_costCalc] at hcc
    rw [← he2]
    exact postMaskFn_masked r2 hcc

def c8mats : List MatRow := [
  { compound := "A", mw := some 200 },
  { compound := "r1", mw := some 100, cost := some 5 },
  { compound := "s1", mw := some 80, density := some 1, cost := some 3 }]

def c8rxns : List RxnRow := [
  { prod := "A", compound := "A", equiv := some 1, costCalc := true },
  { prod := "A", compound := "r1", equiv := some 1 },
  { prod := "A", compound := "s1", volumes := some 5, relative := some "r1",
    solRecyc := some 0 }]

def c8st : State :=
  { finalProd := "A", materials := c8mats, rxns := c8rxns,
    fulldata := columnClearFD [] (mergeFD c8mats c8rxns), modVals := [], cost := none,
    pmi := [] }

def c8res : State := (calcCost 2 c8st).getD c8st

def c8self : Row := (findRow c8res.fulldata "A" "A").getD default

/-- The original claim is false on this route: the final self row is itself
flagged cost-calculated, yet after post-processing its `kg/kg prod` is 1, not
NaN — the blanket "every cost-calculated row is nulled" contradicts the
forced final ratio. -/
theorem c8_counterexample :
    c8self.costCalc = true ∧ c8self.kgkgProd = some 1 :=
  ⟨by with_unfolding_all rfl, by with_unfolding_all rfl⟩

/-- **C8** (amended): post-processing nulls the three per-final-product
columns of every cost-calculated row other than the final self cell (part 1);
the final self cell's `kg/kg prod` is forced to 1, its percentage and
contribution being nulled when it is flagged (part 2); the whole-route PMI is
the `kg/kg prod` sum over the non-cost-calculated rows together with the
final self cell (part 3); and the PMI table's last row is the whole-route
row carrying exactly that sum (part 4). -/
theorem c8_post_filtering :
    (∀ (st : State) (r : Row), r ∈ (rxnDataPost st).fulldata → r.costCalc = true →
        (r.prod == st.finalProd && r.compound == st.finalProd) = false →
        r.pRmCostKgProd = none ∧ r.rmCostKgProd = none ∧ r.kgkgProd = none)
  ∧ (∀ (st : State) (sr : Row),
        findRow (rxnDataPost st).fulldata st.finalProd st.finalProd = some sr →
        sr.kgkgProd = some 1 ∧
          (sr.costCalc = true → sr.pRmCostKgProd = none ∧ sr.rmCostKgProd = none))
  ∧ (∀ (st : State),
        fullPMI (rxnDataPost st).fulldata
          = nansum (((rxnDataPost st).fulldata.filter
              (fun r => !r.costCalc
                || (r.prod == st.finalProd && r.compound == st.finalProd))).map
              (fun r => r.kgkgProd)))
  ∧ (∀ (st : State),
        (rxnDataPost st).pmi.getLast?
          = some (st.finalProd, pmiPre ++ pmiPre ++ "Full Route PMI",
              fullPMI (rxnDataPost st).fulldata)) := by
  refine ⟨rxnDataPost_mask, ?_, ?_, ?_⟩
  · intro st sr hf
    rw [rxnDataPost_fulldata st,
      findRow_updateCell _ _ _ postKgFn (fun r => ⟨rfl, rfl⟩)] at hf
    cases h3 : findRow
        (((if ((findRow st.fulldata st.finalProd st.finalProd).bind
              (fun r => r.opex)).isSome
            then updateCell st.fulldata st.finalProd st.finalProd (postCostFn st.cost)
            else st.fulldata).map (postPctFn st.cost)).map postMaskFn)
        st.finalProd st.finalProd with
    | none =>
      rw [h3] at hf
      exact Option.noConfusion hf
    | some r3 =>
      rw [h3] at hf
      simp only [Option.map_some'] at hf
      rw [← Option.some.inj hf]
      refine ⟨rfl, ?_⟩
      intro hcc
      have hcc3 : r3.costCalc = true := hcc
      have hr3 : r3 ∈ (((if ((findRow st.fulldata st.finalProd st.finalProd).bind
            (fun r => r.opex)).isSome
          then updateCell st.fulldata st.finalProd st.finalProd (postCostFn st.cost)
          else st.fulldata).map (postPctFn st.cost)).map postMaskFn) :=
        List.mem_of_find?_eq_some h3
      obtain ⟨r2, hr2, he2⟩ := List.mem_map.mp hr3
      rw [← he2] at hcc3
      rw [postMaskFn_costCalc] at hcc3
      have hm := postMaskFn_masked r2 hcc3
      rw [he2] at hm
      exact ⟨hm.1, hm.2.1⟩
  · intro st
    unfold fullPMI
    apply nansum_skip_filter
    intro r hr hq
    have hcc : r.costCalc = true := by
      cases hc : r.costCalc
      · rw [hc] at hq
        simp at hq
      · rfl
    have hns : (r.prod == st.finalProd && r.compound == st.finalProd) = false := by
      cases hn : (r.prod == st.finalProd && r.compound == st.finalProd)
      · rfl
      · rw [hn] at hq
        simp at hq
    exact (rxnDataPost_mask st r hr hcc hns).2.2
  · intro st
    rw [rxnDataPost_pmi st]
    exact List.getLast?_concat _

def c8wst : State :=
  { finalProd := "A", materials := [], rxns := [],
    fulldata := [
      { prod := "A", compound := "A", costCalc := true, kgkgProd := some 7,
        pRmCostKgProd := some 8, rmCostKgProd := some 9 },
      { prod := "A", compound := "B", costCalc := true, kgkgProd := some 3,
        pRmCostKgProd := some 4, rmCostKgProd := some 5 }],
    modVals := [], cost := some 5, pmi := [] }

def c8wrow : Row := (findRow (rxnDataPost c8wst).fulldata "A" "B").getD default

def c8wself : Row := (findRow (rxnDataPost c8wst).fulldata "A" "A").getD default

theorem c8_witness :
    (c8wrow.pRmCostKgProd = none ∧ c8wrow.rmCostKgProd = none ∧ c8wrow.kgkgProd = none)
  ∧ c8wself.kgkgProd = some 1
  ∧ (c8wself.pRmCostKgProd = none ∧ c8wself.rmCostKgProd = none)
  ∧ fullPMI (rxnDataPost c8wst).fulldata
      = nansum (((rxnDataPost c8wst).fulldata.filter
          (fun r => !r.costCalc
            || (r.prod == c8wst.finalProd && r.compound == c8wst.finalProd))).map
          (fun r => r.kgkgProd))
  ∧ (rxnDataPost c8wst).pmi.getLast?
      = some (c8wst.finalProd, pmiPre ++ pmiPre ++ "Full Route PMI",
          fullPMI (rxnDataPost c8wst).fulldata) := by
  have h2 := c8_post_filtering.2.1 c8wst c8wself (by with_unfolding_all rfl)
  exact ⟨c8_post_filtering.1 c8wst c8wrow (by with_unfolding_all decide)
      (by with_unfolding_all rfl) (by with_unfolding_all decide),
    h2.1, h2.2 (by with_unfolding_all rfl),
    c8_post_filtering.2.2.1 c8wst, c8_post_filtering.2.2.2 c8wst⟩

/-- **C9.** Dataset construction fails — the constructor raises and no
state is handed to the caller — whenever the merged dataset has a row with no
molecular weight, or a row with neither a known cost nor the cost-calculated
flag, or the materials catalog lists a compound twice, or the final product's
self cell resolves to more than one row. -/
theorem c9_construction_faults :
    ∀ (materials : List MatRow) (rxns : List RxnRow) (fp : String),
      ((columnClearFD [] (mergeFD materials rxns)).any (fun r => r.mw.isNone) = true
       ∨ (columnClearFD [] (mergeFD materials rxns)).any
           (fun r => !r.costCalc && r.cost.isNone) = true
       ∨ hasDup (materials.map (fun m => m.compound)) = true
       ∨ 1 < (columnClearFD [] (mergeFD materials rxns)).countP
           (fun r => r.prod == fp && r.compound == fp)) →
      buildState materials rxns fp = none := by
  intro materials rxns fp h
  unfold buildState rxnDataSetup sanityCheck
  simp only
  cases hb1 : (columnClearFD [] (mergeFD materials rxns)).any (fun r => r.mw.isNone) with
  | true => simp [hb1]
  | false =>
    cases hb2 : (columnClearFD [] (mergeFD materials rxns)).any
        (fun r => !r.costCalc && r.cost.isNone) with
    | true => simp [hb1, hb2]
    | false =>
      cases hb3 : hasDup (materials.map (fun m => m.compound)) with
      | true => simp [hb1, hb2, hb3]
      | false =>
        rcases h with h1 | h2 | h3 | h4
        · rw [hb1] at h1
          exact Bool.noConfusion h1
        · rw [hb2] at h2
          exact Bool.noConfusion h2
        · rw [hb3] at h3
          exact Bool.noConfusion h3
        · have hne : (columnClearFD [] (mergeFD materials rxns)).countP
              (fun r => r.prod == fp && r.compound == fp) ≠ 1 := by omega
          simp [hb1, hb2, hb3, hne]

def c9wmats : List MatRow := [{ compound := "X" }, { compound := "X" }]

theorem c9_witness : buildState c9wmats [] "A" = none :=
  c9_construction_faults c9wmats [] "A"
    (Or.inr (Or.inr (Or.inl (by with_unfolding_all decide))))

def c6mats : List MatRow := [
  { compound := "A", mw := some 200 },
  { compound := "r1", mw := some 100, cost := some 5 },
  { compound := "s1", mw := some 80, density := some 1, cost := some 3 }]

def c6rxns : List RxnRow := [
  { prod := "A", compound := "A", equiv := some 1, costCalc := true },
  { prod := "A", compound := "r1", equiv := some 1 },
  { prod := "A", compound := "s1", volumes := some 5, relative := some "r1",
    solRecyc := some 0 }]

def c6st : State :=
  { finalProd := "A", materials := c6mats, rxns := c6rxns,
    fulldata := columnClearFD [] (mergeFD c6mats c6rxns), modVals := [], cost := none,
    pmi := [] }

def c6base : State := (calcCost 2 c6st).getD c6st

def c6stB : State := ((sensitivity 2 c6st "Equiv" (1/10)).getD ([], c6st)).2

def c6next : State := (calcCost 2 c6stB).getD c6stB

/-- **C6.** The sensitivity routine does *not* restore the recorded override
list: each loop iteration rebuilds the dataset (wiping `_mod_vals`) and then
records its perturbation, and the epilogue restores only `cost` and
`fulldata`.  On this route the call leaves the last perturbation (`r1`'s
equivalents raised to 11/10) in the override list while cost and dataset look
restored, so the next `calc_cost` replays it and returns 11 instead of the
unperturbed 10. -/
theorem c6_sensitivity_leaves_override :
    c6base.cost = some 10
  ∧ c6stB.cost = some 10
  ∧ c6stB.fulldata = c6base.fulldata
  ∧ c6stB.modVals = [⟨"r1", 11/10, "Equiv", some "A"⟩]
  ∧ c6base.modVals = []
  ∧ c6next.cost = some 11
  ∧ c6next.cost ≠ c6base.cost := by
  refine ⟨by with_unfolding_all rfl, by with_unfolding_all rfl, by with_unfolding_all rfl,
    by with_unfolding_all rfl, by with_unfolding_all rfl, by with_unfolding_all rfl,
    by with_unfolding_all decide⟩

def c5mats : List MatRow := [
  { compound := "A", mw := some 200 },
  { compound := "r1", mw := some 100, cost := some 5 }]

def c5rxns : List RxnRow := [
  { prod := "A", compound := "A", equiv := some 1, costCalc := true, opex := some 2 },
  { prod := "A", compound := "r1", equiv := some 1 }]

def c5st0 : State :=
  { finalProd := "A", materials := c5mats, rxns := c5rxns,
    fulldata := columnClearFD [] (mergeFD c5mats c5rxns), modVals := [], cost := none,
    pmi := [] }

def c5pre : State := (calcCost 2 c5st0).getD c5st0

def c5costs : List (Option ℚ) :=
  ((valueScan 2 c5pre "r1" [3, 4] "Cost" none).getD ([], c5pre)).1

def c5res : State := ((valueScan 2 c5pre "r1" [3, 4] "Cost" none).getD ([], c5pre)).2

def c5stA : State := (calcCost 2 (valueMod c5pre "r1" 3 "Cost" none)).getD c5pre

def c5stB : State := (calcCost 2 (valueMod c5pre "r1" 4 "Cost" none)).getD c5pre

/-- `calc_cost` never reads the incoming stored cost or PMI table: both are
overwritten before use. -/
theorem calcCost_ignores_cost_pmi (fuel : Nat) (st : State) (x : Option ℚ)
    (y : List (String × String × ℚ)) :
    calcCost fuel { st with cost := x, pmi := y } = calcCost fuel st := by
  simp only [calcCost, columnClear]
  cases hrc : rxnCost fuel st.finalProd (some 1) (columnClearFD st.modVals st.fulldata) with
  | none => rfl
  | some cf =>
    obtain ⟨c, fd⟩ := cf
    rfl

/-- `calc_cost` changes only `fulldata`, `cost` and `pmi`. -/
theorem calcCost_frame (fuel : Nat) (st s : State) (h : calcCost fuel st = some s) :
    s.finalProd = st.finalProd ∧ s.materials = st.materials ∧ s.rxns = st.rxns ∧
      s.modVals = st.modVals := by
  simp only [calcCost, columnClear] at h
  cases hrc : rxnCost fuel st.finalProd (some 1) (columnClearFD st.modVals st.fulldata) with
  | none =>
    rw [hrc] at h
    exact Option.noConfusion h
  | some cf =>
    obtain ⟨c, fd⟩ := cf
    rw [hrc] at h
    simp only [] at h
    rw [← Option.some.inj h]
    exact ⟨rfl, rfl, rfl, rfl⟩

/-- The state a scan iteration hands to the next iteration: the run's
leftovers restricted to `cost` and `pmi`, everything else as before. -/
theorem contState_eq (st stA : State) (mod : ModVal)
    (hfp : stA.finalProd = st.finalProd) (hm : stA.materials = st.materials)
    (hr : stA.rxns = st.rxns) (hmv : stA.modVals = st.modVals ++ [mod]) :
    ({ stA with fulldata := st.fulldata, modVals := stA.modVals.dropLast } : State)
      = { st with cost := stA.cost, pmi := stA.pmi } := by
  rw [hmv, List.dropLast_concat, hfp, hm, hr]

/-- Recording an override then clearing/replaying ignores the stored cost and
PMI of the state it starts from. -/
theorem calcCost_valueMod_ignores (fuel : Nat) (st : State) (x : Option ℚ)
    (y : List (String × String × ℚ)) (cpd : String) (v : ℚ) (vt : String)
    (step : Option String) :
    calcCost fuel (valueMod { st with cost := x, pmi := y } cpd v vt step)
      = calcCost fuel (valueMod st cpd v vt step) := by
  rw [show valueMod { st with cost := x, pmi := y } cpd v vt step
      = { valueMod st cpd v vt step with cost := x, pmi := y } from rfl]
  exact calcCost_ignores_cost_pmi fuel (valueMod st cpd v vt step) x y

/-- The value `value_scan` leaves in `self.cost`: the restored final
self-row's raw-material cost (`RM cost/kg rxn`). -/
def resetOf (st : State) : Option ℚ :=
  (findRow st.fulldata st.finalProd st.finalProd).bind (fun r => r.rmCostKgRxn)

/-- The original claim is false on this route (final reaction carries OPEX 2,
stored cost 9/2): the scan returns the expected per-value costs and restores
`fulldata` and the override list, but leaves `self.cost` at the OPEX-free
raw-material value 5/2, not the pre-call 9/2. -/
theorem c5_counterexample :
    c5pre.cost = some (9/2)
  ∧ c5costs = [some (7/2), some 4]
  ∧ c5res.fulldata = c5pre.fulldata
  ∧ c5res.modVals = c5pre.modVals
  ∧ c5res.cost = some (5/2)
  ∧ c5res.cost ≠ c5pre.cost := by
  refine ⟨by with_unfolding_all rfl, by with_unfolding_all rfl, by with_unfolding_all rfl,
    by with_unfolding_all rfl, by with_unfolding_all rfl, by with_unfolding_all decide⟩

/-- **C5** (amended): a two-value scan is order-independent — `[v1, v2]` and
`[v2, v1]` yield the same two per-value costs, matched to input order — and
each call leaves `fulldata` and the override list exactly as before, but the
stored final cost is *not* restored: it is reset to the restored self-row's
raw-material cost (and the PMI table of the last iteration leaks), so it
differs from the pre-call cost whenever that held an OPEX-inclusive value. -/
theorem c5_scan_order_and_reset :
    ∀ (fuel : Nat) (st : State) (cpd : String) (v1 v2 : ℚ) (vt : String)
      (step : Option String) (stA stB : State),
      calcCost fuel (valueMod st cpd v1 vt step) = some stA →
      calcCost fuel (valueMod st cpd v2 vt step) = some stB →
      valueScan fuel st cpd [v1, v2] vt step
        = some ([stA.cost, stB.cost], { st with cost := resetOf st, pmi := stB.pmi })
      ∧ valueScan fuel st cpd [v2, v1] vt step
        = some ([stB.cost, stA.cost], { st with cost := resetOf st, pmi := stA.pmi }) := by
  have key : ∀ (fuel : Nat) (st : State) (cpd : String) (va vb : ℚ) (vt : String)
      (step : Option String) (sa sb : State),
      calcCost fuel (valueMod st cpd va vt step) = some sa →
      calcCost fuel (valueMod st cpd vb vt step) = some sb →
      valueScan fuel st cpd [va, vb] vt step
        = some ([sa.cost, sb.cost], { st with cost := resetOf st, pmi := sb.pmi }) := by
    intro fuel st cpd va vb vt step sa sb ha hb
    have hfrA := calcCost_frame fuel (valueMod st cpd va vt step) sa ha
    have e1 : ({ sa with fulldata := st.fulldata, modVals := sa.modVals.dropLast } : State)
        = { st with cost := sa.cost, pmi := sa.pmi } :=
      contState_eq st sa ⟨cpd, va, vt, step⟩ hfrA.1 hfrA.2.1 hfrA.2.2.1 hfrA.2.2.2
    have hb' : calcCost fuel
        (valueMod { st with cost := sa.cost, pmi := sa.pmi } cpd vb vt step) = some sb := by
      rw [calcCost_valueMod_ignores]
      exact hb
    have hfrB := calcCost_frame fuel
      (valueMod { st with cost := sa.cost, pmi := sa.pmi } cpd vb vt step) sb hb'
    have e2 : ({ sb with fulldata := st.fulldata, modVals := sb.modVals.dropLast } : State)
        = { st with cost := sb.cost, pmi := sb.pmi } :=
      contState_eq st sb ⟨cpd, vb, vt, step⟩ hfrB.1 hfrB.2.1 hfrB.2.2.1 hfrB.2.2.2
    have eloop : scanLoop fuel cpd vt step st.fulldata [va, vb] st []
        = some ([sa.cost, sb.cost], { st with cost := sb.cost, pmi := sb.pmi }) := by
      simp only [scanLoop, ha]
      rw [e1]
      simp only [List.nil_append, scanLoop]
      rw [calcCost_valueMod_ignores fuel st sa.cost sa.pmi cpd vb vt step]
      simp only [hb]
      rw [e2]
      rfl
    simp only [valueScan, eloop]
    rfl
  intro fuel st cpd v1 v2 vt step stA stB hA hB
  exact ⟨key fuel st cpd v1 v2 vt step stA stB hA hB,
    key fuel st cpd v2 v1 vt step stB stA hB hA⟩

theorem c5_witness :
    valueScan 2 c5pre "r1" [3, 4] "Cost" none
      = some ([c5stA.cost, c5stB.cost], { c5pre with cost := resetOf c5pre, pmi := c5stB.pmi })
    ∧ valueScan 2 c5pre "r1" [4, 3] "Cost" none
      = some ([c5stB.cost, c5stA.cost], { c5pre with cost := resetOf c5pre, pmi := c5stA.pmi }) :=
  c5_scan_order_and_reset 2 c5pre "r1" 3 4 "Cost" none c5stA c5stB
    (by with_unfolding_all rfl) (by with_unfolding_all rfl)

/-- A row with its `Cost` and the six computed columns blanked: the part of a
row that neither the engine nor `_column_clear` ever changes. -/
def scrub (r : Row) : Row :=
  { r with cost := none, kgkgRxn := none, rmCostKgRxn := none, pRmCostKgRxn := none,
           kgkgProd := none, rmCostKgProd := none, pRmCostKgProd := none }

/-- How an engine-written row relates to the row it came from: the static
fields agree, and the `Cost` is unchanged unless the original row was flagged
cost-calculated. -/
def statR (r0 r : Row) : Prop :=
  scrub r = scrub r0 ∧ (r.cost = r0.cost ∨ r0.costCalc = true)

theorem statR_refl (r : Row) : statR r r := ⟨rfl, Or.inl rfl⟩

theorem statR_flag {a b : Row} (h : statR a b) : b.costCalc = a.costCalc := by
  have h2 : (scrub b).costCalc = (scrub a).costCalc := congrArg Row.costCalc h.1
  exact h2

theorem statR_keys {a b : Row} (h : statR a b) :
    b.prod = a.prod ∧ b.compound = a.compound := by
  have h1 : (scrub b).prod = (scrub a).prod := congrArg Row.prod h.1
  have h2 : (scrub b).compound = (scrub a).compound := congrArg Row.compound h.1
  exact ⟨h1, h2⟩

theorem statR_trans {a b c : Row} (h1 : statR a b) (h2 : statR b c) : statR a c := by
  refine ⟨h2.1.trans h1.1, ?_⟩
  rcases h2.2 with hc2 | hf2
  · rcases h1.2 with hc1 | hf1
    · exact Or.inl (hc2.trans hc1)
    · exact Or.inr hf1
  · rcases h1.2 with hc1 | hf1
    · rw [statR_flag h1] at hf2
      exact Or.inr hf2
    · exact Or.inr hf1

theorem forall2_statR_refl (l : List Row) : List.Forall₂ statR l l := by
  induction l with
  | nil => exact List.Forall₂.nil
  | cons a t ih => exact List.Forall₂.cons (statR_refl a) ih

theorem forall2_statR_trans {l1 l2 l3 : List Row} (h1 : List.Forall₂ statR l1 l2)
    (h2 : List.Forall₂ statR l2 l3) : List.Forall₂ statR l1 l3 := by
  induction h1 generalizing l3 with
  | nil =>
    cases h2
    exact List.Forall₂.nil
  | cons hab ht ih =>
    cases h2 with
    | cons hbc h2t => exact List.Forall₂.cons (statR_trans hab hbc) (ih h2t)

theorem forall2_mem_right {R : Row → Row → Prop} {l1 l2 : List Row}
    (h : List.Forall₂ R l1 l2) : ∀ r' ∈ l2, ∃ r ∈ l1, R r r' := by
  induction h with
  | nil => intro r' hr'; cases hr'
  | cons hab ht ih =>
    intro r' hr'
    rcases List.mem_cons.mp hr' with rfl | hm
    · exact ⟨_, List.mem_cons_self _ _, hab⟩
    · obtain ⟨r, hr, hR⟩ := ih r' hm
      exact ⟨r, List.mem_cons_of_mem _ hr, hR⟩

theorem forall2_statR_map_eq {α : Type} (f : Row → α)
    (hf : ∀ a b, statR a b → f b = f a) {l1 l2 : List Row}
    (h : List.Forall₂ statR l1 l2) : l2.map f = l1.map f := by
  induction h with
  | nil => rfl
  | cons hab ht ih => simp only [List.map_cons, hf _ _ hab, ih]

theorem pred_transfer {l1 l2 : List Row} (h : List.Forall₂ statR l1 l2)
    (P : Row → Prop) (hP : ∀ a b, statR a b → P a → P b)
    (hl : ∀ r ∈ l1, P r) : ∀ r ∈ l2, P r := by
  intro r' hr'
  obtain ⟨r, hr, hst⟩ := forall2_mem_right h r' hr'
  exact hP r r' hst (hl r hr)

theorem forall2_map_self {R : Row → Row → Prop} (f : Row → Row) (l : List Row)
    (h : ∀ r ∈ l, R r (f r)) : List.Forall₂ R l (l.map f) := by
  induction l with
  | nil => exact List.Forall₂.nil
  | cons a t ih =>
    exact List.Forall₂.cons (h a (List.mem_cons_self a t))
      (ih fun r hr => h r (List.mem_cons_of_mem a hr))

theorem stat_updateRxn (fd : List Row) (p : String) (f : Row → Row)
    (hf : ∀ r, scrub (f r) = scrub r ∧ (f r).cost = r.cost) :
    List.Forall₂ statR fd (updateRxn fd p f) := by
  apply forall2_map_self
  intro r _
  by_cases hp : (r.prod == p) = true
  · exact if_pos hp ▸ ⟨(hf r).1, Or.inl (hf r).2⟩
  · exact if_neg hp ▸ statR_refl r

theorem stat_updateCell_keep (fd : List Row) (p c : String) (f : Row → Row)
    (hf : ∀ r, scrub (f r) = scrub r ∧ (f r).cost = r.cost) :
    List.Forall₂ statR fd (updateCell fd p c f) := by
  apply forall2_map_self
  intro r _
  by_cases hp : (r.prod == p && r.compound == c) = true
  · exact if_pos hp ▸ ⟨(hf r).1, Or.inl (hf r).2⟩
  · exact if_neg hp ▸ statR_refl r

theorem stat_updateCell_flag (fd : List Row) (p c : String) (f : Row → Row)
    (hf : ∀ r, scrub (f r) = scrub r)
    (hflag : ∀ r ∈ fd, (r.prod == p && r.compound == c) = true → r.costCalc = true) :
    List.Forall₂ statR fd (updateCell fd p c f) := by
  apply forall2_map_self
  intro r hr
  by_cases hp : (r.prod == p && r.compound == c) = true
  · exact if_pos hp ▸ ⟨hf r, Or.inr (hflag r hr hp)⟩
  · exact if_neg hp ▸ statR_refl r

theorem clearRow_nil_scrub (r : Row) :
    clearRow [] r = { scrub r with cost := if r.costCalc then none else r.cost } := by
  unfold clearRow clearCostRow clearComputedRow scrub
  by_cases h : r.costCalc <;> simp [h]

theorem clearRow_nil_stat {a b : Row} (h : statR a b) : clearRow [] b = clearRow [] a := by
  rw [clearRow_nil_scrub, clearRow_nil_scrub, h.1, statR_flag h]
  cases hf : a.costCalc with
  | true => rfl
  | false =>
    rcases h.2 with hc | hflag
    · rw [hc]
    · rw [hflag] at hf
      exact Bool.noConfusion hf

theorem clearRow_nil_flag (r : Row) : (clearRow [] r).costCalc = r.costCalc := by
  rw [clearRow_nil_scrub]
  rfl

theorem clearRow_nil_keys (r : Row) :
    (clearRow [] r).prod = r.prod ∧ (clearRow [] r).compound = r.compound := by
  rw [clearRow_nil_scrub]
  exact ⟨rfl, rfl⟩

theorem clearRow_nil_cost (r : Row) :
    (clearRow [] r).cost = if r.costCalc then none else r.cost := by
  rw [clearRow_nil_scrub]

theorem scrub_clearRow_nil (r : Row) : scrub (clearRow [] r) = scrub r := by
  rw [clearRow_nil_scrub]
  rfl

theorem clearRow_nil_idem (r : Row) : clearRow [] (clearRow [] r) = clearRow [] r := by
  rw [clearRow_nil_scrub (clearRow [] r), scrub_clearRow_nil, clearRow_nil_flag,
    clearRow_nil_cost, clearRow_nil_scrub r]
  cases hf : r.costCalc with
  | true => rfl
  | false => rfl

/-- `calc_cost` is a function of the final product, the override list, the
cleared dataset, and the pass-through fields; the incoming stored cost and
PMI table are overwritten. -/
theorem calcCost_ext (fuel : Nat) (s t : State)
    (h1 : s.finalProd = t.finalProd) (h2 : s.materials = t.materials)
    (h3 : s.rxns = t.rxns) (h4 : s.modVals = t.modVals)
    (h5 : columnClearFD s.modVals s.fulldata = columnClearFD t.modVals t.fulldata) :
    calcCost fuel s = calcCost fuel t := by
  have h5mv := h5
  rw [h4] at h5mv
  simp only [calcCost, columnClear, h1, h4, h5mv]
  cases hrc : rxnCost fuel t.finalProd (some 1) (columnClearFD t.modVals t.fulldata) with
  | none => simp only [hrc]
  | some cf =>
    obtain ⟨c, fd⟩ := cf
    simp only [hrc, h2, h3]
    rfl

theorem costFlagged_transfer {l1 l2 : List Row} (h : List.Forall₂ statR l1 l2)
    (hl : ∀ r ∈ l1, r.cost = none → r.costCalc = true) :
    ∀ r ∈ l2, r.cost = none → r.costCalc = true := by
  refine pred_transfer h _ ?_ hl
  intro a b hst hPa hbnone
  rw [statR_flag hst]
  rcases hst.2 with hcost | hfl
  · rw [hcost] at hbnone
    exact hPa hbnone
  · exact hfl

theorem selfFlagged_transfer {l1 l2 : List Row} (h : List.Forall₂ statR l1 l2)
    (hl : ∀ r ∈ l1, (r.compound == r.prod) = true → r.costCalc = true) :
    ∀ r ∈ l2, (r.compound == r.prod) = true → r.costCalc = true := by
  refine pred_transfer h _ ?_ hl
  intro a b hst hPa hbkey
  rw [statR_flag hst]
  apply hPa
  obtain ⟨hkp, hkc⟩ := statR_keys hst
  rw [← hkc, ← hkp]
  exact hbkey

theorem cellFlag_transfer {l1 l2 : List Row} (h : List.Forall₂ statR l1 l2) (p c : String)
    (hl : ∀ r ∈ l1, (r.prod == p && r.compound == c) = true → r.costCalc = true) :
    ∀ r ∈ l2, (r.prod == p && r.compound == c) = true → r.costCalc = true := by
  refine pred_transfer h _ ?_ hl
  intro a b hst hPa hbkey
  rw [statR_flag hst]
  apply hPa
  obtain ⟨hkp, hkc⟩ := statR_keys hst
  rw [← hkp, ← hkc]
  exact hbkey

theorem keysND_transfer {l1 l2 : List Row} (h : List.Forall₂ statR l1 l2)
    (hnd : (l1.map (fun r => (r.prod, r.compound))).Nodup) :
    (l2.map (fun r => (r.prod, r.compound))).Nodup := by
  rw [forall2_statR_map_eq (fun r => (r.prod, r.compound))
    (fun a b hst => by
      obtain ⟨h1, h2⟩ := statR_keys hst
      simp only [h1, h2]) h]
  exact hnd

/-- The recursion loop only rewrites `Cost` cells that belonged to flagged
rows, so it relates its input and output tables by `statR`. -/
theorem costLoop_stat (rc : String → Option ℚ → List Row → Option (ℚ × List Row))
    (hrc : ∀ (q : String) (a : Option ℚ) (fd : List Row) (c : ℚ) (fd' : List Row),
      rc q a fd = some (c, fd') →
      (∀ r ∈ fd, r.cost = none → r.costCalc = true) →
      (∀ r ∈ fd, (r.compound == r.prod) = true → r.costCalc = true) →
      (fd.map (fun r => (r.prod, r.compound))).Nodup →
      List.Forall₂ statR fd fd') :
    ∀ (cpds : List String) (p : String) (amp : Option ℚ) (fd fdo : List Row),
      costLoop rc p amp cpds fd = some fdo →
      (∀ r ∈ fd, r.cost = none → r.costCalc = true) →
      (∀ r ∈ fd, (r.compound == r.prod) = true → r.costCalc = true) →
      (fd.map (fun r => (r.prod, r.compound))).Nodup →
      (∀ cpd ∈ cpds, ∀ r ∈ fd, (r.prod == p && r.compound == cpd) = true →
        r.costCalc = true) →
      List.Forall₂ statR fd fdo := by
  intro cpds
  induction cpds with
  | nil =>
    intro p amp fd fdo h _ _ _ _
    unfold costLoop at h
    rw [← Option.some.inj h]
    exact forall2_statR_refl fd
  | cons cpd rest ih =>
    intro p amp fd fdo h hcf hsf hnd hcp
    unfold costLoop at h
    by_cases hc : (cpd == p) = true
    · rw [if_pos hc] at h
      exact ih p amp fd fdo h hcf hsf hnd
        (fun c hc2 => hcp c (List.mem_cons_of_mem _ hc2))
    · rw [if_neg hc] at h
      cases hfr : findRow fd p cpd with
      | none =>
        simp only [hfr] at h
        exact Option.noConfusion h
      | some row =>
        simp only [hfr] at h
        cases hrcall : rc cpd (nmul amp row.kgkgRxn) fd with
        | none =>
          simp only [hrcall] at h
          exact Option.noConfusion h
        | some cf =>
          obtain ⟨cst, fd1⟩ := cf
          simp only [hrcall] at h
          have h1 : List.Forall₂ statR fd fd1 := hrc cpd _ fd cst fd1 hrcall hcf hsf hnd
          have hflag1 : ∀ r ∈ fd1, (r.prod == p && r.compound == cpd) = true →
              r.costCalc = true :=
            cellFlag_transfer h1 p cpd (hcp cpd (List.mem_cons_self cpd rest))
          have h2 : List.Forall₂ statR fd1 (updateCell fd1 p cpd (costWriteFn cst)) :=
            stat_updateCell_flag fd1 p cpd (costWriteFn cst) (fun r => rfl) hflag1
          have h12 := forall2_statR_trans h1 h2
          refine forall2_statR_trans h12 (ih p amp _ fdo h (costFlagged_transfer h12 hcf)
            (selfFlagged_transfer h12 hsf) (keysND_transfer h12 hnd) ?_)
          intro c hc2
          exact cellFlag_transfer h12 p c (hcp c (List.mem_cons_of_mem _ hc2))

theorem nodup_map_inj {l : List Row}
    (hnd : (l.map (fun r => (r.prod, r.compound))).Nodup)
    {x y : Row} (hx : x ∈ l) (hy : y ∈ l)
    (hkey : x.prod = y.prod ∧ x.compound = y.compound) : x = y :=
  List.inj_on_of_nodup_map hnd hx hy (by simp [hkey.1, hkey.2])

set_option maxHeartbeats 1000000 in
/-- The engine relates its input and output tables row by row: static fields
are untouched, and a `Cost` changes only on rows that were flagged
cost-calculated (the self rows it totals and the sub-reaction cells it
back-fills). -/
theorem rxnCost_stat :
    ∀ (fuel : Nat) (p : String) (amp : Option ℚ) (fd : List Row) (c : ℚ) (fd' : List Row),
      rxnCost fuel p amp fd = some (c, fd') →
      (∀ r ∈ fd, r.cost = none → r.costCalc = true) →
      (∀ r ∈ fd, (r.compound == r.prod) = true → r.costCalc = true) →
      (fd.map (fun r => (r.prod, r.compound))).Nodup →
      List.Forall₂ statR fd fd' := by
  intro fuel
  induction fuel with
  | zero =>
    intro p amp fd c fd' h
    cases h
  | succ fuel ih =>
    intro p amp fd c fd' h hcf hsf hnd
    rw [rxnCost_succ] at h
    unfold rxnCostBody at h
    cases hA : amountsOf (rxnRows fd p) with
    | none =>
      simp only [hA] at h
      exact Option.noConfusion h
    | some amts =>
      simp only [hA] at h
      cases hP : lookupAmt amts p with
      | none =>
        simp only [hP] at h
        exact Option.noConfusion h
      | some prodAmt =>
        simp only [hP] at h
        set fd1 := updateRxn fd p (kgkgFn amts prodAmt) with hfd1
        have hS1 : List.Forall₂ statR fd fd1 :=
          stat_updateRxn fd p (kgkgFn amts prodAmt) (fun r => ⟨rfl, rfl⟩)
        have hcf1 := costFlagged_transfer hS1 hcf
        have hsf1 := selfFlagged_transfer hS1 hsf
        have hnd1 := keysND_transfer hS1 hnd
        cases hL : costLoop (rxnCost fuel) p amp (unknownCpds fd1 p) fd1 with
        | none =>
          simp only [hL] at h
          exact Option.noConfusion h
        | some fd2 =>
          simp only [hL] at h
          have hcp1 : ∀ cpd ∈ unknownCpds fd1 p, ∀ r ∈ fd1,
              (r.prod == p && r.compound == cpd) = true → r.costCalc = true := by
            intro cpd hcpd r hr hkey
            unfold unknownCpds at hcpd
            obtain ⟨r0, hr0, hcpd0⟩ := List.mem_map.mp hcpd
            obtain ⟨hr0r, hr0n⟩ := List.mem_filter.mp hr0
            obtain ⟨hr0m, hr0p⟩ := List.mem_filter.mp hr0r
            have hcpd0b : r0.compound = cpd := hcpd0
            have hr0flag : r0.costCalc = true :=
              hcf1 r0 hr0m (Option.isNone_iff_eq_none.mp hr0n)
            simp only [Bool.and_eq_true, beq_iff_eq] at hkey
            have hkeq : r = r0 := by
              apply nodup_map_inj hnd1 hr hr0m
              constructor
              · rw [hkey.1]
                exact (eq_of_beq hr0p).symm
              · rw [hkey.2, ← hcpd0b]
            rw [hkeq]
            exact hr0flag
          have hS2 : List.Forall₂ statR fd1 fd2 :=
            costLoop_stat (rxnCost fuel) (fun q a fdx cx fdx' hx => ih q a fdx cx fdx' hx)
              (unknownCpds fd1 p) p amp fd1 fd2 hL hcf1 hsf1 hnd1 hcp1
          have h02 := forall2_statR_trans hS1 hS2
          set fd3 := updateRxn fd2 p rmFn with hfd3
          set T := nansum ((rxnRows fd3 p).map (fun r => r.rmCostKgRxn)) with hT
          set fd4 := updateCell fd3 p p (rmSetFn T) with hfd4
          set fd5 := updateRxn fd4 p (pctFn T) with hfd5
          set fd6 := updateCell fd5 p p pctClearFn with hfd6
          set fd7 := updateRxn fd6 p (rmProdFn amp) with hfd7
          set fd8 := updateCell fd7 p p (costSetFn T) with hfd8
          set fd9 := updateRxn fd8 p (kgkgProdFn amp) with hfd9
          have hS3 : List.Forall₂ statR fd2 fd3 :=
            stat_updateRxn fd2 p rmFn (fun r => ⟨rfl, rfl⟩)
          have hS4 : List.Forall₂ statR fd3 fd4 :=
            stat_updateCell_keep fd3 p p (rmSetFn T) (fun r => ⟨rfl, rfl⟩)
          have hS5 : List.Forall₂ statR fd4 fd5 :=
            stat_updateRxn fd4 p (pctFn T) (fun r => ⟨rfl, rfl⟩)
          have hS6 : List.Forall₂ statR fd5 fd6 :=
            stat_updateCell_keep fd5 p p pctClearFn (fun r => ⟨rfl, rfl⟩)
          have hS7 : List.Forall₂ statR fd6 fd7 :=
            stat_updateRxn fd6 p (rmProdFn amp) (fun r => ⟨rfl, rfl⟩)
          have h07 := forall2_statR_trans h02 (forall2_statR_trans hS3
            (forall2_statR_trans hS4 (forall2_statR_trans hS5
              (forall2_statR_trans hS6 hS7))))
          have hsf7 := selfFlagged_transfer h07 hsf
          have hS8 : List.Forall₂ statR fd7 fd8 := by
            apply stat_updateCell_flag fd7 p p (costSetFn T) (fun r => rfl)
            intro r hr hkey
            simp only [Bool.and_eq_true, beq_iff_eq] at hkey
            apply hsf7 r hr
            simp [beq_iff_eq, hkey.1, hkey.2]
          have hS9 : List.Forall₂ statR fd8 fd9 :=
            stat_updateRxn fd8 p (kgkgProdFn amp) (fun r => ⟨rfl, rfl⟩)
          have h09 := forall2_statR_trans h07 (forall2_statR_trans hS8 hS9)
          cases hfind : findRow fd9 p p with
          | none =>
            simp only [hfind] at h
            exact Option.noConfusion h
          | some selfRow =>
            simp only [hfind] at h
            cases ho : selfRow.opex with
            | none =>
              simp only [ho, Option.some.injEq, Prod.mk.injEq] at h
              rw [← h.2]
              exact h09
            | some ox =>
              simp only [ho, Option.some.injEq, Prod.mk.injEq] at h
              rw [← h.2]
              exact h09

theorem scrub_postMaskFn (r : Row) : scrub (postMaskFn r) = scrub r := by
  unfold postMaskFn
  by_cases h : r.costCalc <;> simp [scrub, h]

/-- Post-processing, too, only rewrites computed columns and the (flagged)
final self cell's `Cost`. -/
theorem rxnDataPost_stat (st : State)
    (hsf : ∀ r ∈ st.fulldata, (r.compound == r.prod) = true → r.costCalc = true) :
    List.Forall₂ statR st.fulldata (rxnDataPost st).fulldata := by
  rw [rxnDataPost_fulldata]
  set fdA := if ((findRow st.fulldata st.finalProd st.finalProd).bind
      (fun r => r.opex)).isSome
    then updateCell st.fulldata st.finalProd st.finalProd (postCostFn st.cost)
    else st.fulldata with hfdA
  have hA : List.Forall₂ statR st.fulldata fdA := by
    rw [hfdA]
    by_cases hox : (((findRow st.fulldata st.finalProd st.finalProd).bind
        (fun r => r.opex)).isSome) = true
    · rw [if_pos hox]
      apply stat_updateCell_flag st.fulldata st.finalProd st.finalProd (postCostFn st.cost)
        (fun r => rfl)
      intro r hr hkey
      simp only [Bool.and_eq_true, beq_iff_eq] at hkey
      apply hsf r hr
      simp [beq_iff_eq, hkey.1, hkey.2]
    · rw [if_neg hox]
      exact forall2_statR_refl _
  have hB : List.Forall₂ statR fdA (fdA.map (postPctFn st.cost)) :=
    forall2_map_self _ _ (fun r _ => ⟨rfl, Or.inl rfl⟩)
  have hC : List.Forall₂ statR (fdA.map (postPctFn st.cost))
      ((fdA.map (postPctFn st.cost)).map postMaskFn) :=
    forall2_map_self _ _ (fun r _ => ⟨scrub_postMaskFn r, Or.inl (postMaskFn_cost r)⟩)
  have hD : List.Forall₂ statR ((fdA.map (postPctFn st.cost)).map postMaskFn)
      (updateCell ((fdA.map (postPctFn st.cost)).map postMaskFn)
        st.finalProd st.finalProd postKgFn) :=
    stat_updateCell_keep _ _ _ postKgFn (fun r => ⟨rfl, rfl⟩)
  exact forall2_statR_trans hA (forall2_statR_trans hB (forall2_statR_trans hC hD))

/-- **C7** (amended): `calc_cost` is idempotent — a second call with no
intervening overrides reproduces the same state — provided every product
(self) row is flagged cost-calculated.  Without that proviso the engine's
overwrite of an unflagged self row's catalog `Cost` survives the
clear-and-reapply pass and feeds the next run. -/
theorem c7_calc_idempotent :
    ∀ (fuel : Nat) (st st₁ : State),
      st.modVals = [] →
      (∀ r ∈ st.fulldata, r.costCalc = false → r.cost.isSome = true) →
      (∀ r ∈ st.fulldata, (r.compound == r.prod) = true → r.costCalc = true) →
      (st.fulldata.map (fun r => (r.prod, r.compound))).Nodup →
      calcCost fuel st = some st₁ →
      calcCost fuel st₁ = some st₁ := by
  intro fuel st st₁ hmv h1 h2 hnd h
  have horig := h
  have hfd0cf : ∀ r ∈ columnClearFD [] st.fulldata, r.cost = none → r.costCalc = true := by
    intro r hr hcost
    obtain ⟨r0, hr0, he⟩ := List.mem_map.mp hr
    rw [← he, clearRow_nil_flag]
    rw [← he, clearRow_nil_cost] at hcost
    cases hf : r0.costCalc with
    | true => rfl
    | false =>
      simp only [hf, Bool.false_eq_true, if_false] at hcost
      have hs := h1 r0 hr0 hf
      rw [hcost] at hs
      exact Bool.noConfusion hs
  have hfd0sf : ∀ r ∈ columnClearFD [] st.fulldata,
      (r.compound == r.prod) = true → r.costCalc = true := by
    intro r hr hkey
    obtain ⟨r0, hr0, he⟩ := List.mem_map.mp hr
    rw [← he, clearRow_nil_flag]
    apply h2 r0 hr0
    rw [← he] at hkey
    rw [(clearRow_nil_keys r0).1, (clearRow_nil_keys r0).2] at hkey
    exact hkey
  have hfd0nd : ((columnClearFD [] st.fulldata).map
      (fun r => (r.prod, r.compound))).Nodup := by
    show ((st.fulldata.map (clearRow [])).map (fun r => (r.prod, r.compound))).Nodup
    rw [List.map_map]
    have he : ((fun r => (r.prod, r.compound)) ∘ clearRow [])
        = (fun (r : Row) => (r.prod, r.compound)) := by
      funext r
      simp [Function.comp, (clearRow_nil_keys r).1, (clearRow_nil_keys r).2]
    rw [he]
    exact hnd
  simp only [calcCost, columnClear, hmv] at h
  cases hrc : rxnCost fuel st.finalProd (some 1) (columnClearFD [] st.fulldata) with
  | none =>
    simp only [hrc] at h
    exact Option.noConfusion h
  | some cf =>
    obtain ⟨c, fdE⟩ := cf
    simp only [hrc] at h
    have hst1 : rxnDataPost { st with fulldata := fdE, modVals := [], cost := some c }
        = st₁ := Option.some.inj h
    have hENG : List.Forall₂ statR (columnClearFD [] st.fulldata) fdE :=
      rxnCost_stat fuel st.finalProd (some 1) _ c fdE hrc hfd0cf hfd0sf hfd0nd
    have hsfE : ∀ r ∈ fdE, (r.compound == r.prod) = true → r.costCalc = true :=
      selfFlagged_transfer hENG hfd0sf
    have hPOST : List.Forall₂ statR fdE
        (rxnDataPost { st with fulldata := fdE, modVals := [], cost := some c }).fulldata :=
      rxnDataPost_stat { st with fulldata := fdE, modVals := [], cost := some c } hsfE
    have hALL := forall2_statR_trans hENG hPOST
    have hCLR : columnClearFD []
        (rxnDataPost { st with fulldata := fdE, modVals := [], cost := some c }).fulldata
        = columnClearFD [] st.fulldata := by
      show ((rxnDataPost { st with fulldata := fdE, modVals := [], cost := some c
        }).fulldata).map (clearRow []) = st.fulldata.map (clearRow [])
      rw [forall2_statR_map_eq (clearRow []) (fun a b hst => clearRow_nil_stat hst) hALL]
      show (st.fulldata.map (clearRow [])).map (clearRow []) = st.fulldata.map (clearRow [])
      rw [List.map_map]
      have he2 : (clearRow [] ∘ clearRow []) = clearRow [] := funext clearRow_nil_idem
      rw [he2]
    have hfr := calcCost_frame fuel st st₁ horig
    have hext : calcCost fuel st₁ = calcCost fuel st := by
      apply calcCost_ext fuel st₁ st hfr.1 hfr.2.1 hfr.2.2.1 hfr.2.2.2
      rw [hfr.2.2.2, hmv, ← hst1]
      exact hCLR
    rw [hext]
    exact horig

def c7mats : List MatRow := [
  { compound := "A", mw := some 200, cost := some 7 },
  { compound := "r1", mw := some 100, cost := some 5 }]

def c7rxns : List RxnRow := [
  { prod := "A", compound := "A", equiv := some 1 },
  { prod := "A", compound := "r1", equiv := some 2 }]

def c7st : State :=
  { finalProd := "A", materials := c7mats, rxns := c7rxns,
    fulldata := columnClearFD [] (mergeFD c7mats c7rxns), modVals := [], cost := none,
    pmi := [] }

def c7st1 : State := (calcCost 2 c7st).getD c7st

def c7st2 : State := (calcCost 2 c7st1).getD c7st1

/-- The original claim is false: this route passes validation (every row has
a MW and a cost, no duplicates, unique final self cell), yet its final self
row carries a catalog cost *without* the cost-calculated flag, so the
engine's overwrite (12 = 7 + 5) survives the clear pass and the second run
returns 17. -/
theorem c7_counterexample :
    buildState c7mats c7rxns "A" = some c7st
  ∧ c7st1.cost = some 12
  ∧ c7st2.cost = some 17
  ∧ c7st2.cost ≠ c7st1.cost := by
  refine ⟨by with_unfolding_all rfl, by with_unfolding_all rfl, by with_unfolding_all rfl,
    by with_unfolding_all decide⟩

def c7wmats : List MatRow := [
  { compound := "A", mw := some 200 },
  { compound := "r1", mw := some 100, cost := some 5 }]

def c7wrxns : List RxnRow := [
  { prod := "A", compound := "A", equiv := some 1, costCalc := true },
  { prod := "A", compound := "r1", equiv := some 2 }]

def c7wst : State :=
  { finalProd := "A", materials := c7wmats, rxns := c7wrxns,
    fulldata := columnClearFD [] (mergeFD c7wmats c7wrxns), modVals := [], cost := none,
    pmi := [] }

def c7wst1 : State := (calcCost 2 c7wst).getD c7wst

theorem c7_witness : calcCost 2 c7wst1 = some c7wst1 :=
  c7_calc_idempotent 2 c7wst c7wst1 rfl
    (by with_unfolding_all decide)
    (by with_unfolding_all decide)
    (by with_unfolding_all decide)
    (by with_unfolding_all rfl)
